import Mathlib

/-!
Verification of the PySAR interferogram-network core
(`pysar/utils/network.py`, helpers from `pysar/utils/ptime.py`).

Modelling conventions:
* Date strings are modelled by their numeral value: a 6-digit `YYMMDD`
  string is a `Nat < 1000000`, an 8-digit `YYYYMMDD` string is a `Nat`
  in `[10^7, 10^8)`.  For fixed-width digit strings, lexicographic string
  order and equality agree with numeric order and equality, so Python's
  `sorted`/`==`/`in` on these strings are modelled on the numerals.
* A `date12` pair string "a-b" is modelled as the pair of the two
  component numerals.
* Python floats are modelled as exact rationals `ℚ`.
* Python `list.index` is `List.indexOf`; all uses below are guarded by
  membership facts in the theorems.  `sorted` is `List.insertionSort`,
  `sorted(list(set(xs)))` is `List.insertionSort` of `List.dedup`
  (both produce the ascending list of the distinct values).
* Fallible paths (unhandled `ValueError` / `NameError` in the source)
  are modelled with `Option`, `none` meaning the call raises.
-/

namespace PySAR

/-- `ptime.yymmdd2yyyymmdd`: a 6-digit date whose first character is `'9'`
(numeral quotient by 100000 equal to 9) is prefixed with 19, else with 20. -/
def yymmdd2yyyymmdd (n : Nat) : Nat :=
  if n / 100000 = 9 then 19000000 + n else 20000000 + n

/-- `ptime.yyyymmdd` on a single date string: expand 6-digit dates,
leave others unchanged. -/
def yyyymmdd (n : Nat) : Nat :=
  if n < 1000000 then yymmdd2yyyymmdd n else n

/-- `ptime.yymmdd` on a single date string: truncate 8-digit dates to the
last six digits, leave others unchanged. -/
def yymmdd (n : Nat) : Nat :=
  if 10000000 ≤ n ∧ n < 100000000 then n % 1000000 else n

/-- Gregorian leap-year test, as in Python's `datetime`. -/
def isLeap (y : Nat) : Bool :=
  y % 4 == 0 && (y % 100 != 0 || y % 400 == 0)

/-- Days in a month (Python `calendar` rule). -/
def daysInMonth (y m : Nat) : Nat :=
  if m = 2 then (if isLeap y then 29 else 28)
  else if m = 4 ∨ m = 6 ∨ m = 9 ∨ m = 11 then 30 else 31

/-- Cumulative days before month `m` in a non-leap year. -/
def daysBeforeMonthBase : Nat → Nat
  | 1 => 0
  | 2 => 31
  | 3 => 59
  | 4 => 90
  | 5 => 120
  | 6 => 151
  | 7 => 181
  | 8 => 212
  | 9 => 243
  | 10 => 273
  | 11 => 304
  | 12 => 334
  | _ => 0

/-- Cumulative days before month `m` in year `y`. -/
def daysBeforeMonth (y m : Nat) : Nat :=
  daysBeforeMonthBase m + (if 2 < m ∧ isLeap y = true then 1 else 0)

/-- Days before January 1 of year `y` in the proleptic Gregorian calendar
(Python's `datetime._days_before_year`). -/
def daysBeforeYear (y : Nat) : Nat :=
  365 * (y - 1) + (y - 1) / 4 - (y - 1) / 100 + (y - 1) / 400

/-- `datetime.date.toordinal` of an 8-digit date numeral. -/
def toordinal (n : Nat) : Nat :=
  daysBeforeYear (n / 10000) + daysBeforeMonth (n / 10000) (n / 100 % 100) + n % 100

/-- An 8-digit numeral denotes a real calendar date. -/
def ValidDate8 (n : Nat) : Prop :=
  1 ≤ n / 10000 ∧ 1 ≤ n / 100 % 100 ∧ n / 100 % 100 ≤ 12 ∧
    1 ≤ n % 100 ∧ n % 100 ≤ daysInMonth (n / 10000) (n / 100 % 100)

instance (n : Nat) : Decidable (ValidDate8 n) := by
  unfold ValidDate8; infer_instance

/-- Python `sorted` on a list of date numerals. -/
def pySorted (l : List Nat) : List Nat :=
  List.insertionSort (· ≤ ·) l

/-- `ptime.date_list2tbase`: temporal baselines in days relative to the
first date of the list.  (The source indexes `dates[0]`; every caller
passes a non-empty list, the empty case defaults to 0 here.) -/
def date_list2tbase (dateList : List Nat) : List Int :=
  let d8 := dateList.map yyyymmdd
  d8.map (fun d => (toordinal d : Int) - (toordinal (d8.headD 0) : Int))

/-- Python `max` over a list (callers pass non-empty lists; the empty
case defaults to `d`). -/
def listMax {α : Type} [LinearOrder α] (d : α) (l : List α) : α :=
  l.foldl max (l.headD d)

/-- Python `min` over a list (callers pass non-empty lists; the empty
case defaults to `d`). -/
def listMin {α : Type} [LinearOrder α] (d : α) (l : List α) : α :=
  l.foldl min (l.headD d)

/-- `np.argmin`-style: first index of the first element equal to `v`
(`np.where(l == v)[0][0]`). -/
def firstIdxEq (l : List ℚ) (v : ℚ) : Nat :=
  l.findIdx (fun x => decide (x = v))

/-- `np.argmin`: index of the first occurrence of the minimum. -/
def argminIdx (l : List ℚ) : Nat :=
  firstIdxEq l (listMin 0 l)

/-- `itertools.combinations(l, 2)` in list order. -/
def combos2 {α : Type} : List α → List (α × α)
  | [] => []
  | x :: xs => xs.map (fun y => (x, y)) ++ combos2 xs

/-- Lexicographic order on date pairs; for 6-digit components it agrees
with lexicographic order on the serialized "a-b" strings. -/
def pairLe (a b : Nat × Nat) : Prop :=
  a.1 < b.1 ∨ (a.1 = b.1 ∧ a.2 ≤ b.2)

instance : DecidableRel pairLe := fun a b => by
  unfold pairLe; infer_instance

/-- `network.calculate_doppler_overlap`: mean absolute Doppler difference
over 10 range-pixel samples, turned into an overlap fraction. -/
def calculate_doppler_overlap (dop_a dop_b : ℚ × ℚ × ℚ) (bandwidth_az : ℚ) : ℚ :=
  let no_of_rangepix : ℚ := 5000
  let ddiff := (List.range 10).map (fun i =>
    let rangepix : ℚ := ((i : ℚ) - 1) * no_of_rangepix / 10 + 1
    let da := dop_a.1 + (rangepix - 1) * dop_a.2.1 + (rangepix - 1) ^ 2 * dop_a.2.2
    let db := dop_b.1 + (rangepix - 1) * dop_b.2.1 + (rangepix - 1) ^ 2 * dop_b.2.2
    |da - db|)
  let ddiff_mean := ddiff.sum / 10
  (bandwidth_az - ddiff_mean) / bandwidth_az

/-- The sorted distinct canonical date list rebuilt from a pair list
(`sorted(ptime.yyyymmdd(list(set(m_dates + s_dates))))`, as repeated in
the three threshold filters). -/
def dates_from_pairs (date12_list : List (Nat × Nat)) : List Nat :=
  pySorted (((date12_list.map (·.1) ++ date12_list.map (·.2)).dedup).map yyyymmdd)

/-- Per-pair keep-decision of `network.threshold_doppler_overlap`, with
registry lookups. -/
def dopKeep (date6_list : List Nat) (dop_list : List (ℚ × ℚ × ℚ)) (bandwidth_az : ℚ)
    (dop_overlap_min : ℚ) (p : Nat × Nat) : Bool :=
  decide (dop_overlap_min ≤
    calculate_doppler_overlap (dop_list.getD (date6_list.indexOf p.1) (0, 0, 0))
      (dop_list.getD (date6_list.indexOf p.2) (0, 0, 0)) bandwidth_az)

/-- `network.threshold_doppler_overlap`.  When `date_list` is empty and the
pair list is not, the source evaluates `len(pbase_list)` — a name that is
not defined in that function — so the call raises `NameError`; this path
is `none`. -/
def threshold_doppler_overlap (date12_list : List (Nat × Nat)) (date_list : List Nat)
    (dop_list : List (ℚ × ℚ × ℚ)) (bandwidth_az : ℚ) (dop_overlap_min : ℚ) :
    Option (List (Nat × Nat)) :=
  if date12_list = [] then some []
  else if date_list = [] then none
  else
    let date6_list := date_list.map yymmdd
    some (date12_list.filter (dopKeep date6_list dop_list bandwidth_az dop_overlap_min))

/-- Per-pair keep-decision of `network.threshold_perp_baseline`, with
registry lookups. -/
def perpKeep (date6_list : List Nat) (pbase_list : List ℚ) (pbase_max pbase_min : ℚ)
    (p : Nat × Nat) : Bool :=
  let pbase := |pbase_list.getD (date6_list.indexOf p.1) 0 -
    pbase_list.getD (date6_list.indexOf p.2) 0|
  decide (pbase_min ≤ pbase ∧ pbase ≤ pbase_max)

/-- `network.threshold_perp_baseline`.  With an empty `date_list` the date
registry is rebuilt from the pairs and, on a length mismatch with
`pbase_list`, the input list is returned unfiltered. -/
def threshold_perp_baseline (date12_list : List (Nat × Nat)) (date_list : List Nat)
    (pbase_list : List ℚ) (pbase_max : ℚ) (pbase_min : ℚ) : List (Nat × Nat) :=
  if date12_list = [] then []
  else
    let dl := if date_list = [] then dates_from_pairs date12_list else date_list
    if date_list = [] ∧ dl.length ≠ pbase_list.length then date12_list
    else date12_list.filter (perpKeep (dl.map yymmdd) pbase_list pbase_max pbase_min)

/-- Per-pair keep-decision of `network.threshold_temporal_baseline`, with
registry lookups; `tbase/30 in [11, 12]` is Python 3 true division, so the
seasonal test is exact rational equality. -/
def tempKeepLookup (date6_list : List Nat) (tbase_list : List Int) (btemp_max : ℚ)
    (keep_seasonal : Bool) (btemp_min : ℚ) (p : Nat × Nat) : Bool :=
  let tbase : Int :=
    |tbase_list.getD (date6_list.indexOf p.1) 0 - tbase_list.getD (date6_list.indexOf p.2) 0|
  decide (btemp_min ≤ (tbase : ℚ) ∧ (tbase : ℚ) ≤ btemp_max) ||
    (keep_seasonal && decide ((tbase : ℚ) / 30 = 11 ∨ (tbase : ℚ) / 30 = 12))

/-- The same keep-decision written directly on the pair: the registry
lookups of `threshold_temporal_baseline` resolve to the ordinal difference
of the two dates themselves. -/
def tempKeep (btemp_max : ℚ) (keep_seasonal : Bool) (btemp_min : ℚ) (p : Nat × Nat) : Bool :=
  let tbase : Int := |(toordinal (yyyymmdd p.1) : Int) - (toordinal (yyyymmdd p.2) : Int)|
  decide (btemp_min ≤ (tbase : ℚ) ∧ (tbase : ℚ) ≤ btemp_max) ||
    (keep_seasonal && decide ((tbase : ℚ) / 30 = 11 ∨ (tbase : ℚ) / 30 = 12))

/-- `network.threshold_temporal_baseline`: the date registry is rebuilt from
the pair list itself, then each pair is kept by the min/max bounds or the
seasonal test. -/
def threshold_temporal_baseline (date12_list : List (Nat × Nat)) (btemp_max : ℚ)
    (keep_seasonal : Bool) (btemp_min : ℚ) : List (Nat × Nat) :=
  if date12_list = [] then []
  else
    let date8_list := dates_from_pairs date12_list
    let date6_list := date8_list.map yymmdd
    let tbase_list := date_list2tbase date8_list
    date12_list.filter (tempKeepLookup date6_list tbase_list btemp_max keep_seasonal btemp_min)

/-- `ptime.yymmdd_date12`: truncate both components of each pair to the
6-digit form. -/
def yymmdd_date12 (l : List (Nat × Nat)) : List (Nat × Nat) :=
  l.map (fun p => (yymmdd p.1, yymmdd p.2))

/-- The sorted distinct date list used by `network.coherence_matrix`. -/
def coh_date_list (date12_list : List (Nat × Nat)) : List Nat :=
  let d12 := yymmdd_date12 date12_list
  pySorted (((d12.map (·.1) ++ d12.map (·.2)).dedup).map yymmdd)

/-- One write step of `network.coherence_matrix`: store the coherence of
pair `p` at both symmetric positions. -/
def cohWrite (date_list : List Nat) (d12 : List (Nat × Nat)) (coh_list : List ℚ)
    (M : Nat → Nat → Option ℚ) (p : Nat × Nat) : Nat → Nat → Option ℚ :=
  let idx1 := date_list.indexOf p.1
  let idx2 := date_list.indexOf p.2
  let coh := coh_list.getD (d12.indexOf p) 0
  fun a b => if (a = idx1 ∧ b = idx2) ∨ (a = idx2 ∧ b = idx1) then some coh else M a b

/-- `network.coherence_matrix`: a `date_num × date_num` matrix initialized
to NaN (`none`), filled symmetrically with each pair's coherence, with the
diagonal rewritten only when a `diagValue` other than the NaN default is
supplied. -/
def coherence_matrix (date12_list : List (Nat × Nat)) (coh_list : List ℚ)
    (diagValue : Option ℚ) : Nat → Nat → Option ℚ :=
  let d12 := yymmdd_date12 date12_list
  let date_list := coh_date_list date12_list
  let filled := d12.foldl (cohWrite date_list d12 coh_list) (fun _ _ => none)
  match diagValue with
  | none => filled
  | some v => fun a b => if a = b ∧ a < date_list.length then some v else filled a b

/-- `network.pair_sort`.  The source swaps the components of each
out-of-order pair in place, mutating the caller's list, then returns a
sorted copy.  Result: (returned list, final state of the input list). -/
def pair_sort (pairs : List (Nat × Nat)) : List (Nat × Nat) × List (Nat × Nat) :=
  let mutated := pairs.map (fun p => if p.2 < p.1 then (p.2, p.1) else p)
  (List.insertionSort pairLe mutated, mutated)

/-- `network.pair_merge`.  The source aliases `pairs = pairs1` and appends
the unseen pairs of `pairs2` to it, mutating the caller's first list, then
returns a sorted copy.  Result: (returned list, final state of `pairs1`,
final state of `pairs2`). -/
def pair_merge (pairs1 pairs2 : List (Nat × Nat)) :
    List (Nat × Nat) × List (Nat × Nat) × List (Nat × Nat) :=
  let merged := pairs2.foldl (fun acc q => if q ∈ acc then acc else acc ++ [q]) pairs1
  (List.insertionSort pairLe merged, merged, pairs2)

/-- `network.select_pairs_all`: all 2-combinations of the chronologically
sorted dates, serialized in the 6-digit form. -/
def select_pairs_all (date_list : List Nat) : List (Nat × Nat) :=
  let date8_list := pySorted (date_list.map yyyymmdd)
  let date6_list := date8_list.map yymmdd
  combos2 date6_list

/-- `network.select_master_date`.  Without baselines: the middle date of
the list.  With baselines the source ranks dates by mean Euclidean
distance in the scaled (temporal, perpendicular) plane; squared distances
replace the square roots here (no theorem below exercises this branch). -/
def select_master_date (date_list : List Nat) (pbase_list : List ℚ) : Nat :=
  let date8_list := date_list.map yyyymmdd
  if pbase_list = [] then date8_list.getD (date8_list.length / 2) 0
  else
    let tb := date_list2tbase date8_list
    let scale : ℚ := (listMax 0 pbase_list - listMin 0 pbase_list) /
      ((listMax 0 tb - listMin 0 tb : Int) : ℚ)
    let t' := tb.map (fun t => (t : ℚ) * scale)
    let dist := fun i j => (t'.getD i 0 - t'.getD j 0) ^ 2 +
      (pbase_list.getD i 0 - pbase_list.getD j 0) ^ 2
    let disMean := (List.range date8_list.length).map (fun i =>
      ((List.range date8_list.length).map (fun j => dist j i)).sum / (date8_list.length : ℚ))
    date8_list.getD (argminIdx disMean) 0

/-- `network.select_pairs_star`.  When the supplied master date is not in
the registry the source prints the failure, sets the master to `None`, and
the following `date8_list.index(None)` raises `ValueError`: that path is
`none`.  (`s_idx is not m_idx` on small CPython ints is `≠`.) -/
def select_pairs_star (date_list : List Nat) (m_date : Option Nat) (pbase_list : List ℚ) :
    Option (List (Nat × Nat)) :=
  let date8_list := pySorted (date_list.map yyyymmdd)
  let date6_list := date8_list.map yymmdd
  let md := match m_date with
    | none => select_master_date date8_list pbase_list
    | some d => d
  let m_date8 := yyyymmdd md
  if m_date8 ∈ date8_list then
    let m_idx := date8_list.indexOf m_date8
    some ((((List.range date8_list.length).filter (fun s => decide (s ≠ m_idx)))).map
      (fun s => (date6_list.getD (min m_idx s) 0, date6_list.getD (max m_idx s) 0)))
  else none

/-- Cross edges between the grown tree and the remaining vertices; an edge
exists when its weight is a stored (non-zero) entry of the sparse matrix. -/
def crossEdges (w : Nat → Nat → ℚ) : List Nat → List Nat → List (Nat × Nat)
  | [], _ => []
  | i :: is, outT =>
    (outT.filter (fun j => decide (w i j ≠ 0))).map (fun j => (i, j)) ++ crossEdges w is outT

/-- First minimum-weight edge of a candidate list. -/
def pickMin (w : Nat → Nat → ℚ) : List (Nat × Nat) → Option (Nat × Nat)
  | [] => none
  | e :: es =>
    match pickMin w es with
    | none => some e
    | some b => if w e.1 e.2 ≤ w b.1 b.2 then some e else some b

/-- Prim-style tree growth; stops when no stored edge leaves the tree
(after `scipy.sparse.csr_matrix` drops zero entries, a disconnected graph
yields a forest restricted to the start component). -/
def primGo (w : Nat → Nat → ℚ) : Nat → List Nat → List Nat → List (Nat × Nat) → List (Nat × Nat)
  | 0, _, _, acc => acc.reverse
  | fuel + 1, inT, outT, acc =>
    match pickMin w (crossEdges w inT outT) with
    | none => acc.reverse
    | some e => primGo w fuel (inT ++ [e.2]) (outT.erase e.2) (e :: acc)

/-- Minimum spanning tree of the weighted graph on `n` vertices whose edges
are the non-zero entries of `w`; stands in for
`scipy.sparse.csgraph.minimum_spanning_tree` (spec §9 licenses a standard
Prim/Kruskal reimplementation; edge output order is not modelled). -/
def prim (n : Nat) (w : Nat → Nat → ℚ) : List (Nat × Nat) :=
  primGo w n [0] (List.range' 1 (n - 1)) []

/-- The temporal-to-perpendicular normalization factor of
`network.select_pairs_mst` (Pepe and Lanari, 2006). -/
def mstScale (date8_list : List Nat) (pbase_list : List ℚ) : ℚ :=
  (listMax 0 pbase_list - listMin 0 pbase_list) /
    ((listMax 0 (date_list2tbase date8_list) - listMin 0 (date_list2tbase date8_list) : Int) : ℚ)

/-- Squared entry of the pairwise weight matrix of
`network.select_pairs_mst` (squared: the square root is strictly monotone
and zero-preserving, so the stored-edge set and the MST are unchanged). -/
def mstWeightSq (date8_list : List Nat) (pbase_list : List ℚ) (i j : Nat) : ℚ :=
  let t' : List ℚ := (date_list2tbase date8_list).map
    (fun t : Int => (t : ℚ) * mstScale date8_list pbase_list)
  (t'.getD i 0 - t'.getD j 0) ^ 2 + (pbase_list.getD i 0 - pbase_list.getD j 0) ^ 2

/-- `network.select_pairs_mst`: pairwise distances in the scaled
(temporal, perpendicular) plane fed to the MST, whose edges are
serialized with the smaller index first. -/
def select_pairs_mst (date_list : List Nat) (pbase_list : List ℚ) : List (Nat × Nat) :=
  let date6_list := date_list.map yymmdd
  let date8_list := date_list.map yyyymmdd
  (prim date_list.length (mstWeightSq date8_list pbase_list)).map (fun e =>
    (date6_list.getD (min e.1 e.2) 0, date6_list.getD (max e.1 e.2) 0))

/-- Squared scaled baseline distance of one pair, as computed per pair in
`network.select_master_interferogram` (square root elided: it preserves
the order and equality comparisons the source performs on distances). -/
def ifgBaseDistSq (date_list : List Nat) (pbase_list : List ℚ) (p : Nat × Nat) : ℚ :=
  let date8_list := date_list.map yyyymmdd
  let date6_list := date8_list.map yymmdd
  let tb : List ℚ := (date_list2tbase date8_list).map (fun t => (t : ℚ))
  let scale : ℚ := (listMax 0 pbase_list - listMin 0 pbase_list) /
    (listMax 0 tb - listMin 0 tb)
  let t' := tb.map (· * scale)
  (t'.getD (date6_list.indexOf p.2) 0 - t'.getD (date6_list.indexOf p.1) 0) ^ 2 +
    (pbase_list.getD (date6_list.indexOf p.2) 0 - pbase_list.getD (date6_list.indexOf p.1) 0) ^ 2

/-- `network.select_master_interferogram`.  With a master date the search
is over the pairs whose serialized form contains `m_date+'-'`, i.e. whose
first date equals the 6-digit master; `np.min` of an empty selection
raises `ValueError` (`none`), and the chosen index is the first position
of the whole distance array attaining the restricted minimum. -/
def select_master_interferogram (date12_list : List (Nat × Nat)) (date_list : List Nat)
    (pbase_list : List ℚ) (m_date : Option Nat) : Option (Nat × Nat) :=
  let base_distance := date12_list.map (ifgBaseDistSq date_list pbase_list)
  match m_date with
  | none =>
    if date12_list = [] then none
    else some (date12_list.getD (argminIdx base_distance) (0, 0))
  | some md0 =>
    let md := yymmdd md0
    let restricted := (date12_list.filter (fun p => decide (p.1 = md))).map
      (ifgBaseDistSq date_list pbase_list)
    if restricted = [] then none
    else some (date12_list.getD (firstIdxEq base_distance (listMin 0 restricted)) (0, 0))

/-- Undirected adjacency along a pair list. -/
def adjacentIn {α : Type} (edges : List (α × α)) (a b : α) : Prop :=
  (a, b) ∈ edges ∨ (b, a) ∈ edges

/-! ## Theorems -/

/-- C10: the Doppler overlap fraction is symmetric in the two
acquisitions' Doppler polynomials. -/
theorem calculate_doppler_overlap_symm (dop_a dop_b : ℚ × ℚ × ℚ) (bandwidth_az : ℚ) :
    calculate_doppler_overlap dop_a dop_b bandwidth_az =
      calculate_doppler_overlap dop_b dop_a bandwidth_az := by
  simp only [calculate_doppler_overlap, abs_sub_comm]

/-- C2 counterexample: for the registry {070106, 070709} and the supplied
master date 070824, which the first conjunct shows is absent from the
registry, the star strategy returns no network at all (`none`, the
unhandled `ValueError` of `date8_list.index(None)`), instead of a star
network around an auto-selected master. -/
theorem select_pairs_star_missing_master_cex :
    yyyymmdd 70824 ∉ pySorted ([70106, 70709].map yyyymmdd) ∧
    select_pairs_star [70106, 70709] (some 70824) [] = none := by
  exact ⟨by decide, rfl⟩

/-- C2 amended: whenever the supplied master date is missing from the
registry, the star strategy reports the failure and then aborts with an
unhandled lookup error (modelled `none`); no fallback network is built. -/
theorem select_pairs_star_missing_master_raises (date_list : List Nat) (pbase_list : List ℚ)
    (md : Nat) (h : yyyymmdd md ∉ pySorted (date_list.map yyyymmdd)) :
    select_pairs_star date_list (some md) pbase_list = none := by
  simp only [select_pairs_star]
  rw [if_neg h]

/-- C2 witness. -/
theorem select_pairs_star_missing_master_raises_witness :
    select_pairs_star [70106, 70709] (some 80101) [] = none :=
  select_pairs_star_missing_master_raises [70106, 70709] [] 80101 (by decide)

/-- C8: on a date/length mismatch with an empty explicit date list, the
perpendicular-baseline filter does return its input unchanged, but the
Doppler-overlap filter raises `NameError` (its guard references the
undefined name `pbase_list`), modelled `none`: the pair list
`["070101-070201"]` yields 2 derived dates against 3 supplied values. -/
theorem threshold_filter_mismatch_divergence :
    threshold_perp_baseline [(70101, 70201)] [] [1, 2, 3] 500 0 = [(70101, 70201)] ∧
    threshold_doppler_overlap [(70101, 70201)] [] [(0, 0, 0), (0, 0, 0), (0, 0, 0)] 1 (15/100)
      = none := by
  exact ⟨rfl, rfl⟩

/-- C9 counterexample: both pair operations mutate the caller's input.
`pair_merge` appends the novel pair (0,2) to its first argument;
`pair_sort` swaps the out-of-order components of [(1,0)] in place. -/
theorem pair_ops_mutate_input_cex :
    (pair_merge [(0, 1)] [(0, 2)]).2.1 ≠ [(0, 1)] ∧ (pair_sort [(1, 0)]).2 ≠ [(1, 0)] := by
  refine ⟨?_, ?_⟩ <;> decide

theorem merge_prefix (p2 p1 : List (Nat × Nat)) :
    p1 <+: p2.foldl (fun acc q => if q ∈ acc then acc else acc ++ [q]) p1 := by
  induction p2 generalizing p1 with
  | nil => exact List.prefix_refl _
  | cons q p2 ih =>
    simp only [List.foldl_cons]
    refine List.IsPrefix.trans ?_ (ih _)
    split
    · exact List.prefix_refl _
    · exact List.prefix_append _ _

theorem merge_mem (p2 p1 : List (Nat × Nat)) (x : Nat × Nat)
    (hx : x ∈ p2.foldl (fun acc q => if q ∈ acc then acc else acc ++ [q]) p1) :
    x ∈ p1 ∨ x ∈ p2 := by
  induction p2 generalizing p1 with
  | nil => exact Or.inl hx
  | cons q p2 ih =>
    simp only [List.foldl_cons] at hx
    rcases ih _ hx with h | h
    · split at h
      · exact Or.inl h
      · rcases List.mem_append.1 h with h | h
        · exact Or.inl h
        · simp at h; subst h; simp
    · simp [h]

/-- C9 amended: `pair_merge` leaves its second list unchanged but extends
its first list in place — the first list survives as a prefix and every
element of the mutated list comes from one of the two inputs; `pair_sort`
rewrites its input in place, keeping the length and replacing each pair
either by itself or by its component swap. -/
theorem pair_ops_mutation_state (p1 p2 l : List (Nat × Nat)) :
    (pair_merge p1 p2).2.2 = p2 ∧
    p1 <+: (pair_merge p1 p2).2.1 ∧
    (∀ q ∈ (pair_merge p1 p2).2.1, q ∈ p1 ∨ q ∈ p2) ∧
    (pair_sort l).2.length = l.length ∧
    (∀ i, i < l.length →
      (pair_sort l).2.getD i (0, 0) = l.getD i (0, 0) ∨
      (pair_sort l).2.getD i (0, 0) = ((l.getD i (0, 0)).2, (l.getD i (0, 0)).1)) := by
  refine ⟨rfl, merge_prefix p2 p1, fun q hq => merge_mem p2 p1 q hq, by simp [pair_sort], ?_⟩
  intro i hi
  simp only [pair_sort]
  rw [List.getD_eq_getElem _ _ (by simpa using hi), List.getD_eq_getElem _ _ hi,
    List.getElem_map]
  split
  · right; rfl
  · left; rfl

theorem mem_pySorted {a : Nat} {l : List Nat} : a ∈ pySorted l ↔ a ∈ l :=
  (List.perm_insertionSort (· ≤ ·) l).mem_iff

theorem pySorted_nodup {l : List Nat} (h : l.Nodup) : (pySorted l).Nodup :=
  (List.perm_insertionSort (· ≤ ·) l).nodup_iff.2 h

theorem pySorted_sorted (l : List Nat) : List.Sorted (· ≤ ·) (pySorted l) :=
  List.sorted_insertionSort (· ≤ ·) l

theorem yymmdd_yyyymmdd {n : Nat} (h : n < 1000000) : yymmdd (yyyymmdd n) = n := by
  have h1 : yyyymmdd n = yymmdd2yyyymmdd n := by unfold yyyymmdd; rw [if_pos h]
  rw [h1]
  unfold yymmdd2yyyymmdd yymmdd
  by_cases h9 : n / 100000 = 9
  · rw [if_pos h9, if_pos (by omega)]; omega
  · rw [if_neg h9, if_pos (by omega)]; omega

theorem yyyymmdd_large {n : Nat} (h : n < 1000000) :
    10000000 ≤ yyyymmdd n ∧ yyyymmdd n < 100000000 := by
  unfold yyyymmdd yymmdd2yyyymmdd
  rw [if_pos h]
  split <;> omega

theorem yyyymmdd_id {n : Nat} (h : ¬ n < 1000000) : yyyymmdd n = n := by
  unfold yyyymmdd; rw [if_neg h]

theorem indexOf_map_injOn (L : List Nat) (F : Nat → Nat)
    (hF : ∀ a ∈ L, ∀ b ∈ L, F a = F b → a = b) (e : Nat) (he : e ∈ L) :
    (L.map F).indexOf (F e) = L.indexOf e := by
  induction L with
  | nil => cases he
  | cons a L ih =>
    by_cases hae : a = e
    · subst hae; simp [List.indexOf_cons]
    · have he' : e ∈ L := by
        rcases List.mem_cons.1 he with h | h
        · exact absurd h.symm hae
        · exact h
      have hFae : F a ≠ F e := fun hcon =>
        hae (hF a (List.mem_cons_self _ _) e he hcon)
      have hrec := ih
        (fun x hx y hy => hF x (List.mem_cons_of_mem _ hx) y (List.mem_cons_of_mem _ hy)) he'
      simp only [List.map_cons, List.indexOf_cons]
      rw [show (F a == F e) = false by simp [hFae], show (a == e) = false by simp [hae]]
      simp [hrec]

theorem getD_map_indexOf {β : Type} (L : List Nat) (f : Nat → β) (e : Nat) (he : e ∈ L)
    (d : β) : (L.map f).getD (L.indexOf e) d = f e := by
  induction L with
  | nil => cases he
  | cons a L ih =>
    by_cases hae : a = e
    · subst hae; simp [List.indexOf_cons]
    · have he' : e ∈ L := by
        rcases List.mem_cons.1 he with h | h
        · exact absurd h.symm hae
        · exact h
      simp only [List.map_cons, List.indexOf_cons]
      rw [show (a == e) = false by simp [hae]]
      simpa using ih he'

theorem mem_dates_from_pairs {l : List (Nat × Nat)} {x : Nat}
    (hx : x ∈ l.map (·.1) ++ l.map (·.2)) : yyyymmdd x ∈ dates_from_pairs l := by
  unfold dates_from_pairs
  rw [mem_pySorted]
  exact List.mem_map_of_mem _ (List.mem_dedup.2 hx)

theorem dates_from_pairs_src {l : List (Nat × Nat)} {e : Nat}
    (he : e ∈ dates_from_pairs l) : ∃ x ∈ l.map (·.1) ++ l.map (·.2), e = yyyymmdd x := by
  unfold dates_from_pairs at he
  rw [mem_pySorted] at he
  rcases List.mem_map.1 he with ⟨x, hx, rfl⟩
  exact ⟨x, List.mem_dedup.1 hx, rfl⟩

theorem pair_dates_small {l : List (Nat × Nat)}
    (h6 : ∀ q ∈ l, q.1 < 1000000 ∧ q.2 < 1000000) :
    ∀ x ∈ l.map (·.1) ++ l.map (·.2), x < 1000000 := by
  intro x hx
  rcases List.mem_append.1 hx with h | h <;> rcases List.mem_map.1 h with ⟨q, hq, rfl⟩
  · exact (h6 q hq).1
  · exact (h6 q hq).2

theorem dates_from_pairs_id {l : List (Nat × Nat)}
    (h6 : ∀ q ∈ l, q.1 < 1000000 ∧ q.2 < 1000000) :
    (dates_from_pairs l).map yyyymmdd = dates_from_pairs l := by
  have : ∀ e ∈ dates_from_pairs l, yyyymmdd e = e := by
    intro e he
    rcases dates_from_pairs_src he with ⟨x, hx, rfl⟩
    have hxs := pair_dates_small h6 x hx
    have hb := yyyymmdd_large hxs
    exact yyyymmdd_id (by omega)
  calc (dates_from_pairs l).map yyyymmdd = (dates_from_pairs l).map id :=
        List.map_congr_left this
    _ = dates_from_pairs l := List.map_id _

theorem dates_from_pairs_injOn {l : List (Nat × Nat)}
    (h6 : ∀ q ∈ l, q.1 < 1000000 ∧ q.2 < 1000000) :
    ∀ a ∈ dates_from_pairs l, ∀ b ∈ dates_from_pairs l, yymmdd a = yymmdd b → a = b := by
  intro a ha b hb hab
  rcases dates_from_pairs_src ha with ⟨x, hx, rfl⟩
  rcases dates_from_pairs_src hb with ⟨y, hy, rfl⟩
  have hxs := pair_dates_small h6 x hx
  have hys := pair_dates_small h6 y hy
  rw [yymmdd_yyyymmdd hxs, yymmdd_yyyymmdd hys] at hab
  rw [hab]

theorem tempKeepLookup_eq (l : List (Nat × Nat)) (bmax bmin : ℚ) (ks : Bool)
    (h6 : ∀ q ∈ l, q.1 < 1000000 ∧ q.2 < 1000000) (p : Nat × Nat) (hp : p ∈ l) :
    tempKeepLookup ((dates_from_pairs l).map yymmdd) (date_list2tbase (dates_from_pairs l))
      bmax ks bmin p = tempKeep bmax ks bmin p := by
  have h1 : p.1 ∈ l.map (·.1) ++ l.map (·.2) :=
    List.mem_append.2 (Or.inl (List.mem_map_of_mem _ hp))
  have h2 : p.2 ∈ l.map (·.1) ++ l.map (·.2) :=
    List.mem_append.2 (Or.inr (List.mem_map_of_mem _ hp))
  have hs1 : p.1 < 1000000 := (h6 p hp).1
  have hs2 : p.2 < 1000000 := (h6 p hp).2
  have hm1 : yyyymmdd p.1 ∈ dates_from_pairs l := mem_dates_from_pairs h1
  have hm2 : yyyymmdd p.2 ∈ dates_from_pairs l := mem_dates_from_pairs h2
  have hinj := dates_from_pairs_injOn h6
  have key1 : ((dates_from_pairs l).map yymmdd).indexOf p.1 =
      (dates_from_pairs l).indexOf (yyyymmdd p.1) := by
    conv_lhs => rw [show p.1 = yymmdd (yyyymmdd p.1) from (yymmdd_yyyymmdd hs1).symm]
    exact indexOf_map_injOn _ yymmdd hinj _ hm1
  have key2 : ((dates_from_pairs l).map yymmdd).indexOf p.2 =
      (dates_from_pairs l).indexOf (yyyymmdd p.2) := by
    conv_lhs => rw [show p.2 = yymmdd (yyyymmdd p.2) from (yymmdd_yyyymmdd hs2).symm]
    exact indexOf_map_injOn _ yymmdd hinj _ hm2
  have htb : date_list2tbase (dates_from_pairs l) =
      (dates_from_pairs l).map (fun d => (toordinal d : Int) -
        (toordinal ((dates_from_pairs l).headD 0) : Int)) := by
    unfold date_list2tbase
    rw [dates_from_pairs_id h6]
  have kv1 : (date_list2tbase (dates_from_pairs l)).getD
      ((dates_from_pairs l).indexOf (yyyymmdd p.1)) 0 =
      (toordinal (yyyymmdd p.1) : Int) - (toordinal ((dates_from_pairs l).headD 0) : Int) := by
    rw [htb]; exact getD_map_indexOf _ _ _ hm1 _
  have kv2 : (date_list2tbase (dates_from_pairs l)).getD
      ((dates_from_pairs l).indexOf (yyyymmdd p.2)) 0 =
      (toordinal (yyyymmdd p.2) : Int) - (toordinal ((dates_from_pairs l).headD 0) : Int) := by
    rw [htb]; exact getD_map_indexOf _ _ _ hm2 _
  unfold tempKeepLookup tempKeep
  rw [key1, key2, kv1, kv2, sub_sub_sub_cancel_right]

theorem threshold_temporal_eq_filter (l : List (Nat × Nat)) (bmax bmin : ℚ) (ks : Bool)
    (h6 : ∀ q ∈ l, q.1 < 1000000 ∧ q.2 < 1000000) :
    threshold_temporal_baseline l bmax ks bmin = l.filter (tempKeep bmax ks bmin) := by
  by_cases hl : l = []
  · subst hl; rfl
  · simp only [threshold_temporal_baseline, if_neg hl]
    exact List.filter_congr (fun p hp => tempKeepLookup_eq l bmax bmin ks h6 p hp)

theorem tempKeep_345 : tempKeep 100 true 0 (70101, 71212) = false := by
  simp only [tempKeep]
  have h345 : |(toordinal (yyyymmdd 70101) : Int) - (toordinal (yyyymmdd 71212) : Int)| = 345 := by
    decide
  rw [h345]
  norm_num

theorem tempKeep_360 : tempKeep 100 true 0 (70101, 71227) = true := by
  simp only [tempKeep]
  have h360 : |(toordinal (yyyymmdd 70101) : Int) - (toordinal (yyyymmdd 71227) : Int)| = 360 := by
    decide
  rw [h360]
  norm_num

/-- C1: the seasonal keep-branch `tbase/30 in [11, 12]` uses Python 3 true
division, so only pairs of exactly 330 or 360 days survive it.  The pair
070101-071212 has |Δt| = 345 days — inside the claimed 330–390 band — yet
with `btemp_max = 100` the filter drops it; the pair 070101-071227
(|Δt| = 360, an exact multiple of 30) is kept. -/
theorem threshold_temporal_seasonal_exact_only :
    threshold_temporal_baseline [(70101, 71212)] 100 true 0 = [] ∧
    (toordinal (yyyymmdd 71212) : Int) - (toordinal (yyyymmdd 70101) : Int) = 345 ∧
    ((330 : ℚ) ≤ 345 ∧ (345 : ℚ) ≤ 390) ∧
    threshold_temporal_baseline [(70101, 71227)] 100 true 0 = [(70101, 71227)] ∧
    (toordinal (yyyymmdd 71227) : Int) - (toordinal (yyyymmdd 70101) : Int) = 360 := by
  refine ⟨?_, by decide, ⟨by norm_num, by norm_num⟩, ?_, by decide⟩
  · rw [threshold_temporal_eq_filter _ _ _ _ (by decide)]
    simp [tempKeep_345]
  · rw [threshold_temporal_eq_filter _ _ _ _ (by decide)]
    simp [tempKeep_360]

theorem dates_from_pairs_nodup {l : List (Nat × Nat)}
    (h6 : ∀ q ∈ l, q.1 < 1000000 ∧ q.2 < 1000000) : (dates_from_pairs l).Nodup := by
  unfold dates_from_pairs
  apply pySorted_nodup
  apply List.Nodup.map_on _ (List.nodup_dedup _)
  intro x hx y hy hxy
  have hxs : x < 1000000 := pair_dates_small h6 x (List.mem_dedup.1 hx)
  have hys : y < 1000000 := pair_dates_small h6 y (List.mem_dedup.1 hy)
  have := congrArg yymmdd hxy
  rwa [yymmdd_yyyymmdd hxs, yymmdd_yyyymmdd hys] at this

theorem dates_from_pairs_eq_of_sub_len {l y : List (Nat × Nat)}
    (h6 : ∀ q ∈ l, q.1 < 1000000 ∧ q.2 < 1000000)
    (hsub : ∀ q ∈ y, q ∈ l)
    (hlen : (dates_from_pairs y).length = (dates_from_pairs l).length) :
    dates_from_pairs y = dates_from_pairs l := by
  have hy6 : ∀ q ∈ y, q.1 < 1000000 ∧ q.2 < 1000000 := fun q hq => h6 q (hsub q hq)
  have hndy := dates_from_pairs_nodup hy6
  have hndl := dates_from_pairs_nodup h6
  have hmemsub : ∀ e ∈ dates_from_pairs y, e ∈ dates_from_pairs l := by
    intro e he
    rcases dates_from_pairs_src he with ⟨x, hx, rfl⟩
    apply mem_dates_from_pairs
    rcases List.mem_append.1 hx with h | h <;> rcases List.mem_map.1 h with ⟨q, hq, rfl⟩
    · exact List.mem_append.2 (Or.inl (List.mem_map_of_mem _ (hsub q hq)))
    · exact List.mem_append.2 (Or.inr (List.mem_map_of_mem _ (hsub q hq)))
  have hfsub : (dates_from_pairs y).toFinset ⊆ (dates_from_pairs l).toFinset := by
    intro e he
    exact List.mem_toFinset.2 (hmemsub e (List.mem_toFinset.1 he))
  have hcard : (dates_from_pairs l).toFinset.card ≤ (dates_from_pairs y).toFinset.card := by
    rw [List.toFinset_card_of_nodup hndl, List.toFinset_card_of_nodup hndy, hlen]
  have hfe := Finset.eq_of_subset_of_card_le hfsub hcard
  have hperm : (dates_from_pairs y).Perm (dates_from_pairs l) := by
    rw [List.perm_ext_iff_of_nodup hndy hndl]
    intro a
    refine ⟨hmemsub a, fun ha => ?_⟩
    have : a ∈ (dates_from_pairs y).toFinset := by rw [hfe]; exact List.mem_toFinset.2 ha
    exact List.mem_toFinset.1 this
  exact List.eq_of_perm_of_sorted hperm (pySorted_sorted _) (pySorted_sorted _)

theorem threshold_perp_eq_filter (l : List (Nat × Nat)) (dl : List Nat) (pb : List ℚ)
    (pmax pmin : ℚ) (hdl : dl ≠ []) :
    threshold_perp_baseline l dl pb pmax pmin =
      l.filter (perpKeep (dl.map yymmdd) pb pmax pmin) := by
  by_cases hl : l = []
  · subst hl; rfl
  · simp only [threshold_perp_baseline, if_neg hl, if_neg hdl]
    rw [if_neg (fun h => hdl h.1)]

theorem threshold_perp_empty_dl (l : List (Nat × Nat)) (pb : List ℚ) (pmax pmin : ℚ)
    (hl : l ≠ []) :
    threshold_perp_baseline l [] pb pmax pmin =
      if (dates_from_pairs l).length ≠ pb.length then l
      else l.filter (perpKeep ((dates_from_pairs l).map yymmdd) pb pmax pmin) := by
  simp only [threshold_perp_baseline, if_neg hl, eq_self_iff_true, if_true, true_and]

/-- C6: each of the three threshold filters is idempotent.  The temporal
and perpendicular filters literally reproduce their output when re-applied
(for pair lists in the 6-digit serialized form the source expects); the
Doppler filter, whose successful runs are `some`, reproduces any output it
managed to produce. -/
theorem threshold_filters_idempotent :
    (∀ (l : List (Nat × Nat)) (bmax bmin : ℚ) (ks : Bool),
      (∀ q ∈ l, q.1 < 1000000 ∧ q.2 < 1000000) →
      threshold_temporal_baseline (threshold_temporal_baseline l bmax ks bmin) bmax ks bmin =
        threshold_temporal_baseline l bmax ks bmin) ∧
    (∀ (l : List (Nat × Nat)) (dl : List Nat) (pb : List ℚ) (pmax pmin : ℚ),
      (∀ q ∈ l, q.1 < 1000000 ∧ q.2 < 1000000) →
      threshold_perp_baseline (threshold_perp_baseline l dl pb pmax pmin) dl pb pmax pmin =
        threshold_perp_baseline l dl pb pmax pmin) ∧
    (∀ (l out : List (Nat × Nat)) (dl : List Nat) (dops : List (ℚ × ℚ × ℚ)) (bw m : ℚ),
      threshold_doppler_overlap l dl dops bw m = some out →
      threshold_doppler_overlap out dl dops bw m = some out) := by
  refine ⟨?_, ?_, ?_⟩
  · intro l bmax bmin ks h6
    have h6' : ∀ q ∈ l.filter (tempKeep bmax ks bmin), q.1 < 1000000 ∧ q.2 < 1000000 :=
      fun q hq => h6 q (List.mem_of_mem_filter hq)
    rw [threshold_temporal_eq_filter l bmax bmin ks h6,
      threshold_temporal_eq_filter _ bmax bmin ks h6', List.filter_filter]
    simp only [Bool.and_self]
  · intro l dl pb pmax pmin h6
    by_cases hl : l = []
    · subst hl; rfl
    by_cases hdl : dl = []
    · subst hdl
      by_cases hg : (dates_from_pairs l).length ≠ pb.length
      · rw [threshold_perp_empty_dl l pb pmax pmin hl, if_pos hg,
          threshold_perp_empty_dl l pb pmax pmin hl, if_pos hg]
      · push_neg at hg
        rw [threshold_perp_empty_dl l pb pmax pmin hl, if_neg (fun h => h hg)]
        by_cases hyl : l.filter (perpKeep ((dates_from_pairs l).map yymmdd) pb pmax pmin) = []
        · rw [hyl]; rfl
        · by_cases hgy : (dates_from_pairs
              (l.filter (perpKeep ((dates_from_pairs l).map yymmdd) pb pmax pmin))).length ≠
              pb.length
          · rw [threshold_perp_empty_dl _ pb pmax pmin hyl, if_pos hgy]
          · push_neg at hgy
            have heq : dates_from_pairs
                (l.filter (perpKeep ((dates_from_pairs l).map yymmdd) pb pmax pmin)) =
                dates_from_pairs l :=
              dates_from_pairs_eq_of_sub_len h6 (fun q hq => List.mem_of_mem_filter hq)
                (hgy.trans hg.symm)
            rw [threshold_perp_empty_dl _ pb pmax pmin hyl, if_neg (fun h => h hgy), heq,
              List.filter_filter]
            simp only [Bool.and_self]
    · rw [threshold_perp_eq_filter l dl pb pmax pmin hdl,
        threshold_perp_eq_filter _ dl pb pmax pmin hdl, List.filter_filter]
      simp only [Bool.and_self]
  · intro l out dl dops bw m h
    by_cases hl : l = []
    · subst hl
      obtain rfl := Option.some.inj
        ((rfl : threshold_doppler_overlap [] dl dops bw m = some []).symm.trans h)
      rfl
    · by_cases hdl : dl = []
      · subst hdl
        simp only [threshold_doppler_overlap, if_neg hl, eq_self_iff_true, if_true] at h
        exact Option.noConfusion h
      · simp only [threshold_doppler_overlap, if_neg hl, if_neg hdl] at h
        obtain rfl := Option.some.inj h
        simp only [threshold_doppler_overlap, if_neg hdl]
        by_cases hout : l.filter (dopKeep (dl.map yymmdd) dops bw m) = []
        · rw [if_pos hout, hout]
        · rw [if_neg hout, List.filter_filter]
          simp only [Bool.and_self]

/-- C6 witness. -/
theorem threshold_filters_idempotent_witness :
    threshold_temporal_baseline
        (threshold_temporal_baseline [(70101, 70201)] 100 true 0) 100 true 0 =
      threshold_temporal_baseline [(70101, 70201)] 100 true 0 ∧
    threshold_perp_baseline
        (threshold_perp_baseline [(70101, 70201)] [70101, 70201] [1, 2] 500 0)
        [70101, 70201] [1, 2] 500 0 =
      threshold_perp_baseline [(70101, 70201)] [70101, 70201] [1, 2] 500 0 ∧
    threshold_doppler_overlap [] [70101] [(0, 0, 0)] 1 0 = some [] :=
  ⟨threshold_filters_idempotent.1 [(70101, 70201)] 100 0 true (by decide),
   threshold_filters_idempotent.2.1 [(70101, 70201)] [70101, 70201] [1, 2] 500 0 (by decide),
   threshold_filters_idempotent.2.2 [] [] [70101] [(0, 0, 0)] 1 0 rfl⟩

theorem combos2_two_mul_length {α : Type} (l : List α) :
    2 * (combos2 l).length = l.length * (l.length - 1) := by
  induction l with
  | nil => rfl
  | cons x xs ih =>
    simp only [combos2, List.length_append, List.length_map, List.length_cons,
      Nat.add_sub_cancel, Nat.mul_add]
    rw [ih]
    rcases xs with _ | ⟨y, ys⟩
    · rfl
    · simp only [List.length_cons, Nat.add_sub_cancel]
      ring

theorem combos2_length {α : Type} (l : List α) :
    (combos2 l).length = l.length * (l.length - 1) / 2 := by
  have h := combos2_two_mul_length l
  omega

theorem combos2_mem_fst {α : Type} {l : List α} {p : α × α} (hp : p ∈ combos2 l) :
    p.1 ∈ l := by
  induction l with
  | nil => cases hp
  | cons x xs ih =>
    simp only [combos2, List.mem_append] at hp
    rcases hp with h | h
    · rcases List.mem_map.1 h with ⟨y, _, rfl⟩
      exact List.mem_cons_self _ _
    · exact List.mem_cons_of_mem _ (ih h)

theorem combos2_rel {α : Type} {R : α → α → Prop} {l : List α} (h : l.Pairwise R) :
    ∀ p ∈ combos2 l, R p.1 p.2 := by
  induction l with
  | nil => intro p hp; cases hp
  | cons x xs ih =>
    intro p hp
    simp only [combos2, List.mem_append] at hp
    rcases hp with hb | hb
    · rcases List.mem_map.1 hb with ⟨y, hy, rfl⟩
      exact (List.pairwise_cons.1 h).1 y hy
    · exact ih (List.pairwise_cons.1 h).2 p hb

theorem combos2_sorted {l : List Nat} (h : l.Pairwise (· < ·)) :
    List.Sorted pairLe (combos2 l) := by
  induction l with
  | nil => exact List.Pairwise.nil
  | cons x xs ih =>
    have hx : ∀ y ∈ xs, x < y := (List.pairwise_cons.1 h).1
    have hxs : xs.Pairwise (· < ·) := (List.pairwise_cons.1 h).2
    simp only [combos2]
    rw [List.Sorted, List.pairwise_append]
    refine ⟨?_, ih hxs, ?_⟩
    · refine List.Pairwise.map _ ?_ hxs
      intro a b hab
      exact Or.inr ⟨rfl, le_of_lt hab⟩
    · intro a ha b hb
      rcases List.mem_map.1 ha with ⟨y, _, rfl⟩
      exact Or.inl (hx b.1 (combos2_mem_fst hb))

theorem combos2_nodup {α : Type} [DecidableEq α] {l : List α} (h : l.Nodup) :
    (combos2 l).Nodup := by
  induction l with
  | nil => exact List.Pairwise.nil
  | cons x xs ih =>
    have hx : x ∉ xs := (List.nodup_cons.1 h).1
    have hxs : xs.Nodup := (List.nodup_cons.1 h).2
    simp only [combos2]
    rw [List.nodup_append]
    refine ⟨List.Nodup.map (fun a b hab => congrArg Prod.snd hab) hxs, ih hxs, ?_⟩
    intro a ha hb
    rcases List.mem_map.1 ha with ⟨y, _, rfl⟩
    exact hx (combos2_mem_fst hb)

theorem combos2_map {α β : Type} (f : α → β) (l : List α) :
    combos2 (l.map f) = (combos2 l).map (fun p => (f p.1, f p.2)) := by
  induction l with
  | nil => rfl
  | cons x xs ih =>
    simp only [List.map_cons, combos2, List.map_append, List.map_map, ih]
    rfl

/-- C5 counterexample: for the century-straddling registry
{19991231, 20000101, 20000201} the all-pairs strategy returns pairs that
are not lexicographically sorted by their 6-digit serialized identifier:
"991231-000201" precedes "000101-000201". -/
theorem select_pairs_all_not_lex_sorted_cex :
    select_pairs_all [991231, 101, 201] = [(991231, 101), (991231, 201), (101, 201)] ∧
    ¬ List.Sorted pairLe (select_pairs_all [991231, 101, 201]) := by
  constructor
  · rfl
  · decide

/-- C5 amended: the all-pairs strategy always returns `n·(n-1)/2` pairs;
it is the 6-digit truncation of the 2-combinations of the chronologically
sorted canonical 8-digit dates, so (for distinct registry dates) each
underlying pair is chronologically increasing and the list is sorted
lexicographically by the canonical 8-digit identifiers; the serialized
list itself is duplicate-free whenever the 6-digit forms of the registry
dates are distinct (it is lexicographically sorted in the serialized form
only when 6-digit truncation preserves the date order, which the century
boundary breaks). -/
theorem select_pairs_all_spec (date_list : List Nat) :
    (select_pairs_all date_list).length = date_list.length * (date_list.length - 1) / 2 ∧
    select_pairs_all date_list =
      (combos2 (pySorted (date_list.map yyyymmdd))).map (fun p => (yymmdd p.1, yymmdd p.2)) ∧
    ((date_list.map yyyymmdd).Nodup →
      (∀ p ∈ combos2 (pySorted (date_list.map yyyymmdd)), p.1 < p.2) ∧
      List.Sorted pairLe (combos2 (pySorted (date_list.map yyyymmdd)))) ∧
    ((date_list.map (fun d => yymmdd (yyyymmdd d))).Nodup →
      (select_pairs_all date_list).Nodup) := by
  have hunf : select_pairs_all date_list =
      combos2 ((pySorted (date_list.map yyyymmdd)).map yymmdd) := rfl
  have hperm : List.Perm (pySorted (date_list.map yyyymmdd)) (date_list.map yyyymmdd) :=
    List.perm_insertionSort _ _
  refine ⟨?_, ?_, ?_, ?_⟩
  · rw [hunf, combos2_length]
    simp [hperm.length_eq]
  · rw [hunf, combos2_map]
  · intro hnd
    have hnd8 : (pySorted (date_list.map yyyymmdd)).Nodup := hperm.nodup_iff.2 hnd
    have hlt : (pySorted (date_list.map yyyymmdd)).Pairwise (· < ·) := by
      have hle := pySorted_sorted (date_list.map yyyymmdd)
      exact (hle.and hnd8).imp (fun h => lt_of_le_of_ne h.1 h.2)
    exact ⟨combos2_rel hlt, combos2_sorted hlt⟩
  · intro hnd6
    have h1 : ((pySorted (date_list.map yyyymmdd)).map yymmdd).Nodup := by
      have : List.Perm ((pySorted (date_list.map yyyymmdd)).map yymmdd)
          ((date_list.map yyyymmdd).map yymmdd) := hperm.map _
      rw [List.map_map] at this
      exact this.nodup_iff.2 hnd6
    rw [hunf]
    exact combos2_nodup h1

/-- C5 witness. -/
theorem select_pairs_all_spec_witness :
    (select_pairs_all [70101, 70201, 70301]).length = 3 ∧
    ((∀ p ∈ combos2 (pySorted ([70101, 70201, 70301].map yyyymmdd)), p.1 < p.2) ∧
      List.Sorted pairLe (combos2 (pySorted ([70101, 70201, 70301].map yyyymmdd)))) ∧
    (select_pairs_all [70101, 70201, 70301]).Nodup :=
  ⟨(select_pairs_all_spec [70101, 70201, 70301]).1,
   (select_pairs_all_spec [70101, 70201, 70301]).2.2.1 (by decide),
   (select_pairs_all_spec [70101, 70201, 70301]).2.2.2 (by decide)⟩

theorem yymmdd_yymmdd (n : Nat) : yymmdd (yymmdd n) = yymmdd n := by
  by_cases hc : 10000000 ≤ n ∧ n < 100000000
  · have h1 : yymmdd n = n % 1000000 := by unfold yymmdd; rw [if_pos hc]
    rw [h1]
    unfold yymmdd
    rw [if_neg (by omega)]
  · have h1 : yymmdd n = n := by unfold yymmdd; rw [if_neg hc]
    rw [h1]
    exact h1

theorem coh_components_fixed (l : List (Nat × Nat)) :
    ∀ x ∈ (yymmdd_date12 l).map (·.1) ++ (yymmdd_date12 l).map (·.2), yymmdd x = x := by
  intro x hx
  rcases List.mem_append.1 hx with h | h <;> rcases List.mem_map.1 h with ⟨q, hq, rfl⟩ <;>
    rcases List.mem_map.1 hq with ⟨q0, _, rfl⟩
  · exact yymmdd_yymmdd _
  · exact yymmdd_yymmdd _

theorem coh_date_list_eq (l : List (Nat × Nat)) :
    coh_date_list l =
      pySorted ((yymmdd_date12 l).map (·.1) ++ (yymmdd_date12 l).map (·.2)).dedup := by
  simp only [coh_date_list]
  congr 1
  calc ((yymmdd_date12 l).map (·.1) ++ (yymmdd_date12 l).map (·.2)).dedup.map yymmdd
      = ((yymmdd_date12 l).map (·.1) ++ (yymmdd_date12 l).map (·.2)).dedup.map id :=
        List.map_congr_left (fun x hx => coh_components_fixed l x (List.mem_dedup.1 hx))
    _ = _ := List.map_id _

theorem coh_date_list_nodup (l : List (Nat × Nat)) : (coh_date_list l).Nodup := by
  rw [coh_date_list_eq]
  exact pySorted_nodup (List.nodup_dedup _)

theorem mem_coh_date_list {l : List (Nat × Nat)} {p : Nat × Nat} (hp : p ∈ yymmdd_date12 l) :
    p.1 ∈ coh_date_list l ∧ p.2 ∈ coh_date_list l := by
  rw [coh_date_list_eq]
  constructor
  · rw [mem_pySorted, List.mem_dedup]
    exact List.mem_append.2 (Or.inl (List.mem_map_of_mem _ hp))
  · rw [mem_pySorted, List.mem_dedup]
    exact List.mem_append.2 (Or.inr (List.mem_map_of_mem _ hp))

theorem getD_idxOf {α : Type} [BEq α] [LawfulBEq α] {a : α} {l : List α} (h : a ∈ l)
    (d : α) : l.getD (l.indexOf a) d = a := by
  induction l with
  | nil => cases h
  | cons x xs ih =>
    by_cases hxa : x = a
    · subst hxa; simp [List.indexOf_cons]
    · have hbe : (x == a) = false := by simp [hxa]
      have ha' : a ∈ xs := by
        rcases List.mem_cons.1 h with h' | h'
        · exact absurd h'.symm hxa
        · exact h'
      simp only [List.indexOf_cons, hbe, cond_false]
      simpa using ih ha'

theorem idxOf_inj {α : Type} [BEq α] [LawfulBEq α] {a b : α} {l : List α}
    (ha : a ∈ l) (hb : b ∈ l) (h : l.indexOf a = l.indexOf b) : a = b := by
  have h1 := getD_idxOf ha a
  rw [h, getD_idxOf hb] at h1
  exact h1.symm

theorem idxOf_lt_length {α : Type} [BEq α] [LawfulBEq α] {a : α} {l : List α}
    (h : a ∈ l) : l.indexOf a < l.length := by
  induction l with
  | nil => cases h
  | cons x xs ih =>
    by_cases hxa : x = a
    · subst hxa; simp [List.indexOf_cons]
    · have hbe : (x == a) = false := by simp [hxa]
      have ha' : a ∈ xs := by
        rcases List.mem_cons.1 h with h' | h'
        · exact absurd h'.symm hxa
        · exact h'
      simp only [List.indexOf_cons, hbe, cond_false, List.length_cons]
      exact Nat.succ_lt_succ (ih ha')

theorem idxOf_getElem {α : Type} [BEq α] [LawfulBEq α] {l : List α} (hnd : l.Nodup)
    (k : Nat) (hk : k < l.length) : l.indexOf l[k] = k := by
  induction l generalizing k with
  | nil => exact absurd hk (Nat.not_lt_zero k)
  | cons x xs ih =>
    rcases k with _ | k
    · simp [List.indexOf_cons]
    · have hx : x ∉ xs := (List.nodup_cons.1 hnd).1
      have hklen : k < xs.length := by simpa using hk
      have hbe : (x == xs[k]) = false := by
        simp only [beq_eq_false_iff_ne]
        intro hc
        exact hx (hc ▸ List.getElem_mem hklen)
      simp only [List.getElem_cons_succ, List.indexOf_cons, hbe, cond_false]
      rw [ih (List.nodup_cons.1 hnd).2 k hklen]

theorem cohFold_untouched (DL : List Nat) (d12 : List (Nat × Nat)) (cv : List ℚ)
    (ws : List (Nat × Nat)) (M0 : Nat → Nat → Option ℚ) (a b : Nat)
    (h : ∀ p ∈ ws, ¬ ((a = DL.indexOf p.1 ∧ b = DL.indexOf p.2) ∨
      (a = DL.indexOf p.2 ∧ b = DL.indexOf p.1))) :
    ws.foldl (cohWrite DL d12 cv) M0 a b = M0 a b := by
  induction ws generalizing M0 with
  | nil => rfl
  | cons w ws ih =>
    rw [List.foldl_cons, ih _ (fun p hp => h p (List.mem_cons_of_mem _ hp))]
    simp only [cohWrite]
    rw [if_neg (h w (List.mem_cons_self _ _))]

theorem cohFold_symm (DL : List Nat) (d12 : List (Nat × Nat)) (cv : List ℚ)
    (ws : List (Nat × Nat)) (M0 : Nat → Nat → Option ℚ)
    (hM : ∀ a b, M0 a b = M0 b a) (a b : Nat) :
    ws.foldl (cohWrite DL d12 cv) M0 a b = ws.foldl (cohWrite DL d12 cv) M0 b a := by
  induction ws generalizing M0 with
  | nil => exact hM a b
  | cons w ws ih =>
    simp only [List.foldl_cons]
    refine ih _ ?_
    intro x y
    simp only [cohWrite]
    by_cases hc : (x = DL.indexOf w.1 ∧ y = DL.indexOf w.2) ∨
        (x = DL.indexOf w.2 ∧ y = DL.indexOf w.1)
    · rw [if_pos hc, if_pos (by tauto)]
    · rw [if_neg hc, if_neg (by tauto), hM x y]

/-- C7: for well-formed pair lists (pairs distinct as unordered pairs, two
distinct dates each) with a parallel coherence list, the matrix is
symmetric, stores each pair's coherence at both index positions, is NaN
(`none`) wherever no pair covers the entry, and is NaN on the diagonal by
default. -/
theorem coherence_matrix_spec (l : List (Nat × Nat)) (cv : List ℚ)
    (hlen : cv.length = l.length)
    (hnd : (yymmdd_date12 l).Pairwise (fun p q => p ≠ q ∧ p ≠ (q.2, q.1)))
    (hpd : ∀ p ∈ yymmdd_date12 l, p.1 ≠ p.2) :
    (∀ a b, coherence_matrix l cv none a b = coherence_matrix l cv none b a) ∧
    (∀ k, k < l.length →
      coherence_matrix l cv none
          ((coh_date_list l).indexOf ((yymmdd_date12 l).getD k (0, 0)).1)
          ((coh_date_list l).indexOf ((yymmdd_date12 l).getD k (0, 0)).2) =
        some (cv.getD k 0) ∧
      coherence_matrix l cv none
          ((coh_date_list l).indexOf ((yymmdd_date12 l).getD k (0, 0)).2)
          ((coh_date_list l).indexOf ((yymmdd_date12 l).getD k (0, 0)).1) =
        some (cv.getD k 0)) ∧
    (∀ a b, a < (coh_date_list l).length → b < (coh_date_list l).length →
      (∀ p ∈ yymmdd_date12 l,
        ¬ (p.1 = (coh_date_list l).getD a 0 ∧ p.2 = (coh_date_list l).getD b 0) ∧
        ¬ (p.1 = (coh_date_list l).getD b 0 ∧ p.2 = (coh_date_list l).getD a 0)) →
      coherence_matrix l cv none a b = none) ∧
    (∀ a, coherence_matrix l cv none a a = none) := by
  have hM : coherence_matrix l cv none =
      (yymmdd_date12 l).foldl (cohWrite (coh_date_list l) (yymmdd_date12 l) cv)
        (fun _ _ => none) := rfl
  have hd12nd : (yymmdd_date12 l).Nodup := hnd.imp (fun h => h.1)
  have hlend12 : (yymmdd_date12 l).length = l.length := List.length_map _ _
  refine ⟨?_, ?_, ?_, ?_⟩
  · intro a b
    rw [hM]
    exact cohFold_symm _ _ _ _ (fun _ _ => none) (fun _ _ => rfl) a b
  · intro k hk
    have hk' : k < (yymmdd_date12 l).length := by rw [hlend12]; exact hk
    set d12 := yymmdd_date12 l with hd12
    set DL := coh_date_list l with hDL
    set p := d12[k] with hp
    have hpmem : p ∈ d12 := List.getElem_mem hk'
    have hgetD : d12.getD k (0, 0) = p := List.getD_eq_getElem _ _ hk'
    have hsplit : d12 = d12.take k ++ (p :: d12.drop (k + 1)) := by
      conv_lhs => rw [← List.take_append_drop k d12, List.drop_eq_getElem_cons hk']
    have hfold : d12.foldl (cohWrite DL d12 cv) (fun _ _ => none) =
        (d12.drop (k + 1)).foldl (cohWrite DL d12 cv)
          (cohWrite DL d12 cv ((d12.take k).foldl (cohWrite DL d12 cv) (fun _ _ => none)) p) := by
      calc d12.foldl (cohWrite DL d12 cv) (fun _ _ => none)
          = (d12.take k ++ p :: d12.drop (k + 1)).foldl (cohWrite DL d12 cv)
              (fun _ _ => none) :=
            congrArg (fun t : List (Nat × Nat) =>
              t.foldl (cohWrite DL d12 cv) (fun _ _ => none)) hsplit
        _ = _ := by rw [List.foldl_append, List.foldl_cons]
    have hlater : ∀ q ∈ d12.drop (k + 1), q ≠ p ∧ q ≠ (p.2, p.1) ∧ p ≠ q ∧ p ≠ (q.2, q.1) := by
      intro q hq
      rcases List.mem_drop_iff_getElem.1 hq with ⟨i, hi, hqe⟩
      have hik : k < k + 1 + i := by omega
      have hrel := List.pairwise_iff_getElem.1 hnd k (k + 1 + i) hk' (by omega) hik
      rw [hqe] at hrel
      refine ⟨fun hc => hrel.1 hc.symm, fun hc => ?_, hrel.1, hrel.2⟩
      apply hrel.2
      rw [hc]
    have hmemp := mem_coh_date_list hpmem
    have hclash : ∀ q ∈ d12.drop (k + 1),
        ¬ ((DL.indexOf p.1 = DL.indexOf q.1 ∧ DL.indexOf p.2 = DL.indexOf q.2) ∨
          (DL.indexOf p.1 = DL.indexOf q.2 ∧ DL.indexOf p.2 = DL.indexOf q.1)) := by
      intro q hq hcon
      have hmemq := mem_coh_date_list (List.mem_of_mem_drop hq)
      rcases hcon with ⟨h1, h2⟩ | ⟨h1, h2⟩
      · have e1 := idxOf_inj hmemp.1 hmemq.1 h1
        have e2 := idxOf_inj hmemp.2 hmemq.2 h2
        exact (hlater q hq).2.2.1 (Prod.ext e1 e2)
      · have e1 := idxOf_inj hmemp.1 hmemq.2 h1
        have e2 := idxOf_inj hmemp.2 hmemq.1 h2
        exact (hlater q hq).2.2.2 (Prod.ext e1 e2)
    have hidxp : d12.indexOf p = k := idxOf_getElem hd12nd k hk'
    have hcoh : cv.getD (d12.indexOf p) 0 = cv.getD k 0 := by rw [hidxp]
    rw [hgetD, hM, hfold]
    constructor
    · rw [cohFold_untouched _ _ _ _ _ _ _ (fun q hq => hclash q hq)]
      simp only [cohWrite]
      rw [if_pos (by tauto), hcoh]
    · rw [cohFold_untouched _ _ _ _ _ _ _ ?later]
      case later =>
        intro q hq hcon
        exact hclash q hq (by tauto)
      simp only [cohWrite]
      rw [if_pos (by tauto), hcoh]
  · intro a b ha hb habs
    rw [hM]
    rw [cohFold_untouched _ _ _ _ _ _ _ ?absent]
    case absent =>
      intro q hq hcon
      have hmemq := mem_coh_date_list hq
      rcases hcon with ⟨h1, h2⟩ | ⟨h1, h2⟩
      · exact (habs q hq).1 ⟨by rw [h1, getD_idxOf hmemq.1], by rw [h2, getD_idxOf hmemq.2]⟩
      · exact (habs q hq).2 ⟨by rw [h2, getD_idxOf hmemq.1], by rw [h1, getD_idxOf hmemq.2]⟩
  · intro a
    rw [hM]
    rw [cohFold_untouched _ _ _ _ _ _ _ ?diag]
    case diag =>
      intro q hq hcon
      have hmemq := mem_coh_date_list hq
      have hne : (coh_date_list l).indexOf q.1 ≠ (coh_date_list l).indexOf q.2 := by
        intro hcon2
        exact hpd q hq (idxOf_inj hmemq.1 hmemq.2 hcon2)
      rcases hcon with ⟨h1, h2⟩ | ⟨h1, h2⟩
      · exact hne (h1 ▸ h2 ▸ rfl)
      · exact hne (h2 ▸ h1 ▸ rfl)

/-- C7 witness. -/
theorem coherence_matrix_spec_witness :
    (∀ a b, coherence_matrix [(70101, 70201), (70101, 70301)] [1/2, 7/10] none a b =
      coherence_matrix [(70101, 70201), (70101, 70301)] [1/2, 7/10] none b a) ∧
    (∀ a, coherence_matrix [(70101, 70201), (70101, 70301)] [1/2, 7/10] none a a = none) :=
  ⟨(coherence_matrix_spec [(70101, 70201), (70101, 70301)] [1/2, 7/10] rfl
      (by decide) (by decide)).1,
   (coherence_matrix_spec [(70101, 70201), (70101, 70301)] [1/2, 7/10] rfl
      (by decide) (by decide)).2.2.2⟩

theorem foldl_min_le_init {α : Type} [LinearOrder α] (l : List α) (a : α) :
    l.foldl min a ≤ a := by
  induction l generalizing a with
  | nil => exact le_refl a
  | cons x xs ih =>
    rw [List.foldl_cons]
    exact le_trans (ih (min a x)) (min_le_left a x)

theorem foldl_min_le_mem {α : Type} [LinearOrder α] (l : List α) (a : α) :
    ∀ x ∈ l, l.foldl min a ≤ x := by
  induction l generalizing a with
  | nil => intro x hx; cases hx
  | cons y ys ih =>
    intro x hx
    rw [List.foldl_cons]
    rcases List.mem_cons.1 hx with rfl | hx'
    · exact le_trans (foldl_min_le_init ys (min a x)) (min_le_right a x)
    · exact ih (min a y) x hx'

theorem foldl_min_mem {α : Type} [LinearOrder α] (l : List α) (a : α) :
    l.foldl min a = a ∨ l.foldl min a ∈ l := by
  induction l generalizing a with
  | nil => exact Or.inl rfl
  | cons y ys ih =>
    rw [List.foldl_cons]
    rcases ih (min a y) with h | h
    · rcases min_cases a y with ⟨he, _⟩ | ⟨he, _⟩
      · exact Or.inl (h.trans he)
      · exact Or.inr (List.mem_cons.2 (Or.inl (h.trans he)))
    · exact Or.inr (List.mem_cons.2 (Or.inr h))

theorem listMin_le {α : Type} [LinearOrder α] (d : α) (l : List α) :
    ∀ x ∈ l, listMin d l ≤ x :=
  foldl_min_le_mem l (l.headD d)

theorem listMin_mem {α : Type} [LinearOrder α] (d : α) {l : List α} (h : l ≠ []) :
    listMin d l ∈ l := by
  rcases foldl_min_mem l (l.headD d) with he | he
  · rw [listMin, he]
    rcases l with _ | ⟨x, xs⟩
    · exact absurd rfl h
    · exact List.mem_cons_self _ _
  · exact he

/-- C3 counterexample: the preferred date 070121 occurs in both pairs of
the list (as the second, slave date), yet master-pair selection raises
(`np.min` of an empty selection; modelled `none`) because the substring
test `m_date+'-' in date12` only matches pairs whose first date is the
preferred one. -/
theorem select_master_interferogram_slave_only_cex :
    (∃ p ∈ [((70101 : Nat), (70121 : Nat)), (70111, 70121)], p.1 = 70121 ∨ p.2 = 70121) ∧
    select_master_interferogram [(70101, 70121), (70111, 70121)] [70101, 70111, 70121]
      [0, 10, 20] (some 70121) = none := by
  exact ⟨⟨(70101, 70121), by simp⟩, rfl⟩

theorem argmin_restricted_spec (f : (Nat × Nat) → ℚ) (l sub : List (Nat × Nat))
    (hsub : ∀ x ∈ sub, x ∈ l) (hne : sub ≠ []) :
    (l.map f).findIdx (fun x => decide (x = listMin 0 (sub.map f))) < l.length ∧
    f (l.getD ((l.map f).findIdx (fun x => decide (x = listMin 0 (sub.map f)))) (0, 0)) =
      listMin 0 (sub.map f) := by
  have hsubne : sub.map f ≠ [] := by
    intro hc
    rw [List.map_eq_nil_iff] at hc
    exact hne hc
  have hmnmem : listMin 0 (sub.map f) ∈ sub.map f := listMin_mem 0 hsubne
  have hex : ∃ x ∈ l.map f, (fun x => decide (x = listMin 0 (sub.map f))) x = true := by
    rcases List.mem_map.1 hmnmem with ⟨q1, hq1, hq1e⟩
    exact ⟨f q1, List.mem_map_of_mem _ (hsub q1 hq1), by simp [hq1e]⟩
  have hlt := List.findIdx_lt_length_of_exists hex
  have hltd : (l.map f).findIdx (fun x => decide (x = listMin 0 (sub.map f))) < l.length := by
    rw [List.length_map] at hlt
    exact hlt
  refine ⟨hltd, ?_⟩
  have h2 := @List.findIdx_getElem _ (fun x => decide (x = listMin 0 (sub.map f)))
    (l.map f) hlt
  simp only [List.getElem_map, decide_eq_true_eq] at h2
  rw [List.getD_eq_getElem _ _ hltd]
  exact h2

/-- C3 amended: with a preferred date set, the search is restricted to the
pairs whose first (master) date equals the 6-digit preferred date — not to
all pairs containing it.  If no pair starts with the preferred date the
call fails (raises), even when the date occurs as a slave date; otherwise
the function returns the first pair of the whole list whose scaled
baseline distance equals the minimum distance over the restricted pairs
(a pair that need not itself contain the preferred date when an earlier
pair ties that distance). -/
theorem select_master_interferogram_master_first (d12 : List (Nat × Nat)) (dl : List Nat)
    (pb : List ℚ) (md0 : Nat) :
    ((∀ p ∈ d12, p.1 ≠ yymmdd md0) →
      select_master_interferogram d12 dl pb (some md0) = none) ∧
    ((∃ q ∈ d12, q.1 = yymmdd md0) →
      ∃ r, select_master_interferogram d12 dl pb (some md0) = some r ∧ r ∈ d12 ∧
        ∀ q ∈ d12, q.1 = yymmdd md0 → ifgBaseDistSq dl pb r ≤ ifgBaseDistSq dl pb q) := by
  constructor
  · intro hnone
    have hfilter : d12.filter (fun p => decide (p.1 = yymmdd md0)) = [] := by
      rw [List.filter_eq_nil_iff]
      intro a ha
      simp only [decide_eq_true_eq]
      exact hnone a ha
    simp only [select_master_interferogram, hfilter, List.map_nil, if_true]
  · intro hsome
    rcases hsome with ⟨q0, hq0, hq0e⟩
    have hq0f : q0 ∈ d12.filter (fun p => decide (p.1 = yymmdd md0)) :=
      List.mem_filter.2 ⟨hq0, by simp [hq0e]⟩
    have hfne : (d12.filter (fun p => decide (p.1 = yymmdd md0))).map
        (ifgBaseDistSq dl pb) ≠ [] := by
      intro hc
      rw [List.map_eq_nil_iff] at hc
      rw [hc] at hq0f
      cases hq0f
    have hspec := argmin_restricted_spec (ifgBaseDistSq dl pb) d12
      (d12.filter (fun p => decide (p.1 = yymmdd md0)))
      (fun x hx => List.mem_of_mem_filter hx)
      (fun hc => hfne (by rw [hc]; rfl))
    refine ⟨d12.getD ((d12.map (ifgBaseDistSq dl pb)).findIdx
      (fun x => decide (x = listMin 0 ((d12.filter (fun p => decide (p.1 = yymmdd md0))).map
        (ifgBaseDistSq dl pb))))) (0, 0), ?_, ?_, ?_⟩
    · simp only [select_master_interferogram, firstIdxEq]
      rw [if_neg hfne]
    · rw [List.getD_eq_getElem _ _ hspec.1]
      exact List.getElem_mem hspec.1
    · intro q hq hqe
      rw [hspec.2]
      apply listMin_le
      exact List.mem_map_of_mem _ (List.mem_filter.2 ⟨hq, by simp [hqe]⟩)

/-- C3 witness. -/
theorem select_master_interferogram_master_first_witness :
    select_master_interferogram [(70121, 70101), (70111, 70121)] [70101, 70111, 70121]
      [0, 10, 20] (some 70122) = none ∧
    ∃ r, select_master_interferogram [(70121, 70101), (70111, 70121)] [70101, 70111, 70121]
        [0, 10, 20] (some 70121) = some r ∧
      r ∈ [((70121 : Nat), (70101 : Nat)), (70111, 70121)] ∧
      ∀ q ∈ [((70121 : Nat), (70101 : Nat)), (70111, 70121)], q.1 = yymmdd 70121 →
        ifgBaseDistSq [70101, 70111, 70121] [0, 10, 20] r ≤
          ifgBaseDistSq [70101, 70111, 70121] [0, 10, 20] q :=
  ⟨(select_master_interferogram_master_first [(70121, 70101), (70111, 70121)]
      [70101, 70111, 70121] [0, 10, 20] 70122).1 (by decide),
   (select_master_interferogram_master_first [(70121, 70101), (70111, 70121)]
      [70101, 70111, 70121] [0, 10, 20] 70121).2 ⟨(70121, 70101), by decide⟩⟩

theorem yyyymmdd_idem (n : Nat) : yyyymmdd (yyyymmdd n) = yyyymmdd n := by
  by_cases h : n < 1000000
  · have hb := yyyymmdd_large h
    exact yyyymmdd_id (by omega)
  · rw [yyyymmdd_id h]
    exact yyyymmdd_id h

theorem daysInMonth_le31 (y m : Nat) : daysInMonth y m ≤ 31 := by
  unfold daysInMonth
  split
  · split <;> omega
  · split <;> omega

set_option maxHeartbeats 1000000 in
theorem dbm_le (y : Nat) {m1 m2 : Nat} (h1 : 1 ≤ m1) (h12 : m1 < m2) (h2 : m2 ≤ 12) :
    daysBeforeMonth y m1 + daysInMonth y m1 ≤ daysBeforeMonth y m2 := by
  have hm1 : m1 ≤ 11 := by omega
  by_cases hl : isLeap y = true
  · interval_cases m1 <;> interval_cases m2 <;>
      simp [daysBeforeMonth, daysBeforeMonthBase, daysInMonth, hl]
  · interval_cases m1 <;> interval_cases m2 <;>
      simp [daysBeforeMonth, daysBeforeMonthBase, daysInMonth, hl]

set_option maxHeartbeats 1000000 in
theorem dbm_dim_le (y : Nat) {m : Nat} (h1 : 1 ≤ m) (h2 : m ≤ 12) :
    daysBeforeMonth y m + daysInMonth y m ≤ 365 + (if isLeap y = true then 1 else 0) := by
  by_cases hl : isLeap y = true
  · interval_cases m <;>
      simp [daysBeforeMonth, daysBeforeMonthBase, daysInMonth, hl]
  · interval_cases m <;>
      simp [daysBeforeMonth, daysBeforeMonthBase, daysInMonth, hl]

set_option maxHeartbeats 1600000 in
theorem dby_succ (y : Nat) (h : 1 ≤ y) :
    daysBeforeYear (y + 1) = daysBeforeYear y + 365 + (if isLeap y = true then 1 else 0) := by
  have hiff : (isLeap y = true) ↔ (y % 4 = 0 ∧ (y % 100 ≠ 0 ∨ y % 400 = 0)) := by
    unfold isLeap
    simp [Bool.and_eq_true, Bool.or_eq_true, beq_iff_eq, bne_iff_ne]
  unfold daysBeforeYear
  by_cases hl : isLeap y = true
  · rw [if_pos hl]
    rw [hiff] at hl
    clear hiff
    omega
  · rw [if_neg hl]
    rw [hiff] at hl
    have hl2 : y % 4 ≠ 0 ∨ (y % 100 = 0 ∧ y % 400 ≠ 0) := by tauto
    clear hiff hl
    simp only [Nat.add_sub_cancel]
    rcases hl2 with h4 | ⟨h100, h400⟩
    · omega
    · omega

theorem dby_mono {y y' : Nat} (h1 : 1 ≤ y) (h : y ≤ y') :
    daysBeforeYear y ≤ daysBeforeYear y' := by
  induction y', h using Nat.le_induction with
  | base => exact le_refl _
  | succ z hz ih =>
    have hs := dby_succ z (le_trans h1 hz)
    omega

theorem toordinal_lt {a b : Nat} (ha : ValidDate8 a) (hb : ValidDate8 b) (hab : a < b) :
    toordinal a < toordinal b := by
  obtain ⟨hya, hma1, hma2, hda1, hda2⟩ := ha
  obtain ⟨hyb, hmb1, hmb2, hdb1, hdb2⟩ := hb
  unfold toordinal
  rcases (show a / 10000 < b / 10000 ∨ (a / 10000 = b / 10000 ∧
      (a / 100 % 100 < b / 100 % 100 ∨ (a / 100 % 100 = b / 100 % 100 ∧
        a % 100 < b % 100))) by omega) with hy | ⟨hy, hm | ⟨hm, hd⟩⟩
  · have h1 := dbm_dim_le (a / 10000) hma1 hma2
    have h2 := dby_succ (a / 10000) hya
    have h3 := dby_mono (show 1 ≤ a / 10000 + 1 by omega)
      (show a / 10000 + 1 ≤ b / 10000 by omega)
    omega
  · rw [hy] at hda2 ⊢
    have h1 := dbm_le (b / 10000) hma1 hm hmb2
    omega
  · rw [hy, hm]
    omega

theorem toordinal_ne {a b : Nat} (ha : ValidDate8 a) (hb : ValidDate8 b) (hab : a ≠ b) :
    toordinal a ≠ toordinal b := by
  rcases Nat.lt_or_ge a b with h | h
  · exact Nat.ne_of_lt (toordinal_lt ha hb h)
  · rcases Nat.eq_or_lt_of_le h with h' | h'
    · exact absurd h'.symm hab
    · exact (Nat.ne_of_lt (toordinal_lt hb ha h')).symm

theorem crossEdges_mem {w : Nat → Nat → ℚ} {inT outT : List Nat} {e : Nat × Nat} :
    e ∈ crossEdges w inT outT ↔ e.1 ∈ inT ∧ e.2 ∈ outT ∧ w e.1 e.2 ≠ 0 := by
  induction inT with
  | nil => simp [crossEdges]
  | cons i is ih =>
    simp only [crossEdges, List.mem_append, ih, List.mem_map, List.mem_filter,
      List.mem_cons, decide_eq_true_eq]
    constructor
    · rintro (⟨j, ⟨hj, hw⟩, rfl⟩ | ⟨h1, h2, h3⟩)
      · exact ⟨Or.inl rfl, hj, hw⟩
      · exact ⟨Or.inr h1, h2, h3⟩
    · rintro ⟨h1 | h1, h2, h3⟩
      · refine Or.inl ⟨e.2, ⟨h2, ?_⟩, ?_⟩
        · rw [← h1]; exact h3
        · rw [← h1]
      · exact Or.inr ⟨h1, h2, h3⟩

theorem pickMin_mem {w : Nat → Nat → ℚ} {l : List (Nat × Nat)} {e : Nat × Nat}
    (h : pickMin w l = some e) : e ∈ l := by
  induction l generalizing e with
  | nil => cases h
  | cons x xs ih =>
    rcases hx : pickMin w xs with _ | b
    · simp only [pickMin, hx] at h
      exact List.mem_cons.2 (Or.inl (Option.some.inj h).symm)
    · simp only [pickMin, hx] at h
      split at h
      · exact List.mem_cons.2 (Or.inl (Option.some.inj h).symm)
      · exact List.mem_cons.2 (Or.inr (ih ((Option.some.inj h) ▸ hx)))

theorem pickMin_ne_none {w : Nat → Nat → ℚ} {l : List (Nat × Nat)} (h : l ≠ []) :
    pickMin w l ≠ none := by
  rcases l with _ | ⟨x, xs⟩
  · exact absurd rfl h
  · rcases hx : pickMin w xs with _ | b <;> simp only [pickMin, hx]
    · simp
    · split <;> simp

theorem adjacentIn_mono {α : Type} {E E' : List (α × α)} (h : ∀ e ∈ E, e ∈ E') {a b : α}
    (hab : adjacentIn E a b) : adjacentIn E' a b := by
  rcases hab with h1 | h1
  · exact Or.inl (h _ h1)
  · exact Or.inr (h _ h1)

theorem reach_mono {α : Type} {E E' : List (α × α)} (h : ∀ e ∈ E, e ∈ E') {a b : α}
    (hab : Relation.ReflTransGen (adjacentIn E) a b) :
    Relation.ReflTransGen (adjacentIn E') a b :=
  hab.mono (fun _ _ hx => adjacentIn_mono h hx)

theorem adjacentIn_symm {α : Type} (E : List (α × α)) : Symmetric (adjacentIn E) := by
  intro a b hab
  rcases hab with h | h
  · exact Or.inr h
  · exact Or.inl h

theorem headD_append_ne {inT : List Nat} (h : inT ≠ []) (x d : Nat) :
    (inT ++ [x]).headD d = inT.headD d := by
  rcases inT with _ | ⟨a, rest⟩
  · exact absurd rfl h
  · rfl

theorem primGo_spec {n : Nat} {w : Nat → Nat → ℚ}
    (hw : ∀ i j, i < n → j < n → i ≠ j → w i j ≠ 0) :
    ∀ (fuel : Nat) (inT outT : List Nat) (acc : List (Nat × Nat)),
      outT.length ≤ fuel →
      inT ≠ [] →
      (∀ i ∈ inT, i < n) → (∀ j ∈ outT, j < n) →
      outT.Nodup → (∀ j ∈ outT, j ∉ inT) →
      (∀ e ∈ acc, e.1 < n ∧ e.2 < n) →
      (∀ v ∈ inT, Relation.ReflTransGen (adjacentIn acc) (inT.headD 0) v) →
      (primGo w fuel inT outT acc).length = acc.length + outT.length ∧
      (∀ e ∈ primGo w fuel inT outT acc, e.1 < n ∧ e.2 < n) ∧
      (∀ v, v ∈ inT ∨ v ∈ outT →
        Relation.ReflTransGen (adjacentIn (primGo w fuel inT outT acc)) (inT.headD 0) v) := by
  intro fuel
  induction fuel with
  | zero =>
    intro inT outT acc hfuel hin hibnd hobnd hond hdisj haccb hreach
    have hout : outT = [] := List.length_eq_zero.1 (Nat.le_zero.1 hfuel)
    subst hout
    simp only [primGo]
    refine ⟨by simp, ?_, ?_⟩
    · intro e he
      exact haccb e (List.mem_reverse.1 he)
    · intro v hv
      rcases hv with hv | hv
      · exact reach_mono (fun e he => List.mem_reverse.2 he) (hreach v hv)
      · cases hv
  | succ fuel ih =>
    intro inT outT acc hfuel hin hibnd hobnd hond hdisj haccb hreach
    rcases hpick : pickMin w (crossEdges w inT outT) with _ | e
    · have hout : outT = [] := by
        by_contra hne
        rcases List.exists_mem_of_ne_nil inT hin with ⟨i0, hi0⟩
        rcases List.exists_mem_of_ne_nil outT hne with ⟨j0, hj0⟩
        have hcross : (i0, j0) ∈ crossEdges w inT outT := by
          rw [crossEdges_mem]
          exact ⟨hi0, hj0, hw i0 j0 (hibnd i0 hi0) (hobnd j0 hj0)
            (fun hc => hdisj j0 hj0 (hc ▸ hi0))⟩
        exact pickMin_ne_none (fun hc => by rw [hc] at hcross; cases hcross) hpick
      subst hout
      simp only [primGo, hpick]
      refine ⟨by simp, ?_, ?_⟩
      · intro e he
        exact haccb e (List.mem_reverse.1 he)
      · intro v hv
        rcases hv with hv | hv
        · exact reach_mono (fun e he => List.mem_reverse.2 he) (hreach v hv)
        · cases hv
    · have hecross := pickMin_mem hpick
      rw [crossEdges_mem] at hecross
      obtain ⟨he1, he2, hwne⟩ := hecross
      have houtne : outT ≠ [] := fun hc => by rw [hc] at he2; cases he2
      have hlen2 : (outT.erase e.2).length = outT.length - 1 :=
        List.length_erase_of_mem he2
      have hout1 : 1 ≤ outT.length := by
        rcases outT with _ | _
        · exact absurd rfl houtne
        · simp
      have hinclude : ∀ v ∈ inT ++ [e.2], v ∈ inT ∨ v = e.2 := by
        intro v hv
        rcases List.mem_append.1 hv with h | h
        · exact Or.inl h
        · simp at h
          exact Or.inr h
      have hih := ih (inT ++ [e.2]) (outT.erase e.2) (e :: acc)
        (by omega)
        (by simp)
        (by
          intro i hi
          rcases hinclude i hi with h | h
          · exact hibnd i h
          · exact h ▸ hobnd e.2 he2)
        (fun j hj => hobnd j (List.mem_of_mem_erase hj))
        (hond.erase _)
        (by
          intro j hj hcon
          have hj2 := (hond.mem_erase_iff.1 hj)
          rcases hinclude j hcon with h | h
          · exact hdisj j hj2.2 h
          · exact hj2.1 h)
        (by
          intro f hf
          rcases List.mem_cons.1 hf with rfl | hf'
          · exact ⟨hibnd f.1 he1, hobnd f.2 he2⟩
          · exact haccb f hf')
        (by
          intro v hv
          rw [headD_append_ne hin]
          rcases hinclude v hv with h | h
          · exact reach_mono (fun x hx => List.mem_cons_of_mem _ hx) (hreach v h)
          · subst h
            refine Relation.ReflTransGen.tail
              (reach_mono (fun x hx => List.mem_cons_of_mem _ hx) (hreach e.1 he1)) ?_
            exact Or.inl (List.mem_cons_self _ _))
      rw [headD_append_ne hin] at hih
      simp only [primGo, hpick]
      refine ⟨?_, hih.2.1, ?_⟩
      · rw [hih.1]
        simp only [List.length_cons]
        omega
      · intro v hv
        apply hih.2.2
        rcases hv with hv | hv
        · exact Or.inl (List.mem_append.2 (Or.inl hv))
        · by_cases hve : v = e.2
          · exact Or.inl (List.mem_append.2 (Or.inr (by simp [hve])))
          · exact Or.inr (hond.mem_erase_iff.2 ⟨hve, hv⟩)

theorem prim_spec (n : Nat) (w : Nat → Nat → ℚ) (hn : 1 ≤ n)
    (hw : ∀ i j, i < n → j < n → i ≠ j → w i j ≠ 0) :
    (prim n w).length = n - 1 ∧
    (∀ e ∈ prim n w, e.1 < n ∧ e.2 < n) ∧
    (∀ v, v < n → Relation.ReflTransGen (adjacentIn (prim n w)) 0 v) := by
  have h := primGo_spec hw n [0] (List.range' 1 (n - 1)) []
    (by rw [List.length_range']; omega)
    (by simp)
    (by intro i hi; simp at hi; omega)
    (by
      intro j hj
      rw [List.mem_range'_1] at hj
      omega)
    (List.nodup_range' _ _)
    (by
      intro j hj
      rw [List.mem_range'_1] at hj
      simp
      omega)
    (by simp)
    (by
      intro v hv
      simp at hv
      subst hv
      exact Relation.ReflTransGen.refl)
  refine ⟨?_, h.2.1, ?_⟩
  · rw [prim, h.1]
    simp [List.length_range']
  · intro v hv
    apply h.2.2
    by_cases hv0 : v = 0
    · simp [hv0]
    · refine Or.inr ?_
      rw [List.mem_range'_1]
      omega

theorem foldl_max_init_le {α : Type} [LinearOrder α] (l : List α) (a : α) :
    a ≤ l.foldl max a := by
  induction l generalizing a with
  | nil => exact le_refl a
  | cons x xs ih =>
    rw [List.foldl_cons]
    exact le_trans (le_max_left a x) (ih (max a x))

theorem foldl_max_mem_le {α : Type} [LinearOrder α] (l : List α) (a : α) :
    ∀ x ∈ l, x ≤ l.foldl max a := by
  induction l generalizing a with
  | nil => intro x hx; cases hx
  | cons y ys ih =>
    intro x hx
    rw [List.foldl_cons]
    rcases List.mem_cons.1 hx with rfl | hx'
    · exact le_trans (le_max_right a x) (foldl_max_init_le ys (max a x))
    · exact ih (max a y) x hx'

theorem listMax_ge {α : Type} [LinearOrder α] (d : α) (l : List α) :
    ∀ x ∈ l, x ≤ listMax d l :=
  foldl_max_mem_le l (l.headD d)

theorem tbase_getD {dl : List Nat} {i : Nat} (hi : i < dl.length) :
    (date_list2tbase (dl.map yyyymmdd)).getD i 0 =
      (toordinal ((dl.map yyyymmdd).getD i 0) : Int) -
        (toordinal ((dl.map yyyymmdd).headD 0) : Int) := by
  have hd8id : (dl.map yyyymmdd).map yyyymmdd = dl.map yyyymmdd := by
    rw [List.map_map]
    exact List.map_congr_left (fun d _ => yyyymmdd_idem d)
  have htb : date_list2tbase (dl.map yyyymmdd) =
      (dl.map yyyymmdd).map (fun d => (toordinal d : Int) -
        (toordinal ((dl.map yyyymmdd).headD 0) : Int)) := by
    unfold date_list2tbase
    rw [hd8id]
  have hi8 : i < (dl.map yyyymmdd).length := by
    rw [List.length_map]
    exact hi
  have hi8m : i < ((dl.map yyyymmdd).map (fun d => (toordinal d : Int) -
      (toordinal ((dl.map yyyymmdd).headD 0) : Int))).length := by
    rw [List.length_map]
    exact hi8
  rw [htb, List.getD_eq_getElem _ _ hi8m, List.getElem_map,
    List.getD_eq_getElem _ _ hi8]

theorem tbase_length (dl : List Nat) :
    (date_list2tbase (dl.map yyyymmdd)).length = dl.length := by
  unfold date_list2tbase
  simp

theorem tbase_injOn {dl : List Nat}
    (hval : ∀ d ∈ dl, ValidDate8 (yyyymmdd d)) (hnd : (dl.map yyyymmdd).Nodup)
    {i j : Nat} (hi : i < dl.length) (hj : j < dl.length) (hij : i ≠ j) :
    (date_list2tbase (dl.map yyyymmdd)).getD i 0 ≠
      (date_list2tbase (dl.map yyyymmdd)).getD j 0 := by
  rw [tbase_getD hi, tbase_getD hj]
  have hi8 : i < (dl.map yyyymmdd).length := by rw [List.length_map]; exact hi
  have hj8 : j < (dl.map yyyymmdd).length := by rw [List.length_map]; exact hj
  have hvi : ValidDate8 ((dl.map yyyymmdd).getD i 0) := by
    rw [List.getD_eq_getElem _ _ hi8, List.getElem_map]
    exact hval _ (List.getElem_mem hi)
  have hvj : ValidDate8 ((dl.map yyyymmdd).getD j 0) := by
    rw [List.getD_eq_getElem _ _ hj8, List.getElem_map]
    exact hval _ (List.getElem_mem hj)
  have hne : (dl.map yyyymmdd).getD i 0 ≠ (dl.map yyyymmdd).getD j 0 := by
    rw [List.getD_eq_getElem _ _ hi8, List.getD_eq_getElem _ _ hj8]
    intro hc
    exact hij ((hnd.getElem_inj_iff).1 hc)
  have := toordinal_ne hvi hvj hne
  omega

theorem mstWeightSq_ne_zero {dl : List Nat} {pb : List ℚ}
    (hn : 2 ≤ dl.length) (hval : ∀ d ∈ dl, ValidDate8 (yyyymmdd d))
    (hnd : (dl.map yyyymmdd).Nodup) (hpb : listMin 0 pb ≠ listMax 0 pb)
    {i j : Nat} (hi : i < dl.length) (hj : j < dl.length) (hij : i ≠ j) :
    mstWeightSq (dl.map yyyymmdd) pb i j ≠ 0 := by
  have htblen := tbase_length dl
  have htb0 : (date_list2tbase (dl.map yyyymmdd)).getD 0 0 ∈
      date_list2tbase (dl.map yyyymmdd) := by
    rw [List.getD_eq_getElem _ _ (by omega)]
    exact List.getElem_mem (by omega)
  have htb1 : (date_list2tbase (dl.map yyyymmdd)).getD 1 0 ∈
      date_list2tbase (dl.map yyyymmdd) := by
    rw [List.getD_eq_getElem _ _ (by omega)]
    exact List.getElem_mem (by omega)
  have htbne01 := tbase_injOn hval hnd (show 0 < dl.length by omega)
    (show 1 < dl.length by omega) (by omega)
  have hdenne : listMax 0 (date_list2tbase (dl.map yyyymmdd)) ≠
      listMin 0 (date_list2tbase (dl.map yyyymmdd)) := by
    intro hc
    have h0u := listMax_ge 0 _ _ htb0
    have h0l := listMin_le 0 _ _ htb0
    have h1u := listMax_ge 0 _ _ htb1
    have h1l := listMin_le 0 _ _ htb1
    omega
  have hscale : mstScale (dl.map yyyymmdd) pb ≠ 0 := by
    unfold mstScale
    apply div_ne_zero
    · exact sub_ne_zero_of_ne (Ne.symm hpb)
    · rw [Int.cast_ne_zero]
      exact sub_ne_zero_of_ne hdenne
  have hti : i < (date_list2tbase (dl.map yyyymmdd)).length := by omega
  have htj : j < (date_list2tbase (dl.map yyyymmdd)).length := by omega
  have htine : ((date_list2tbase (dl.map yyyymmdd)).getD i 0 : ℚ) ≠
      ((date_list2tbase (dl.map yyyymmdd)).getD j 0 : ℚ) := by
    rw [Int.cast_injective.ne_iff]
    exact tbase_injOn hval hnd hi hj hij
  unfold mstWeightSq
  simp only
  have hgi : ((date_list2tbase (dl.map yyyymmdd)).map
      (fun t : Int => (t : ℚ) * mstScale (dl.map yyyymmdd) pb)).getD i 0 =
      ((date_list2tbase (dl.map yyyymmdd)).getD i 0 : ℚ) *
        mstScale (dl.map yyyymmdd) pb := by
    rw [List.getD_eq_getElem _ _ (by rw [List.length_map]; exact hti), List.getElem_map,
      List.getD_eq_getElem _ _ hti]
  have hgj : ((date_list2tbase (dl.map yyyymmdd)).map
      (fun t : Int => (t : ℚ) * mstScale (dl.map yyyymmdd) pb)).getD j 0 =
      ((date_list2tbase (dl.map yyyymmdd)).getD j 0 : ℚ) *
        mstScale (dl.map yyyymmdd) pb := by
    rw [List.getD_eq_getElem _ _ (by rw [List.length_map]; exact htj), List.getElem_map,
      List.getD_eq_getElem _ _ htj]
  rw [hgi, hgj]
  intro hc
  have hfac : (((date_list2tbase (dl.map yyyymmdd)).getD i 0 : ℚ) -
      ((date_list2tbase (dl.map yyyymmdd)).getD j 0 : ℚ)) *
      mstScale (dl.map yyyymmdd) pb ≠ 0 :=
    mul_ne_zero (sub_ne_zero_of_ne htine) hscale
  have hrw : ((date_list2tbase (dl.map yyyymmdd)).getD i 0 : ℚ) *
      mstScale (dl.map yyyymmdd) pb -
      ((date_list2tbase (dl.map yyyymmdd)).getD j 0 : ℚ) *
      mstScale (dl.map yyyymmdd) pb =
      (((date_list2tbase (dl.map yyyymmdd)).getD i 0 : ℚ) -
        ((date_list2tbase (dl.map yyyymmdd)).getD j 0 : ℚ)) *
        mstScale (dl.map yyyymmdd) pb := by
    ring
  rw [hrw] at hc
  have hsq1 : 0 < ((((date_list2tbase (dl.map yyyymmdd)).getD i 0 : ℚ) -
      ((date_list2tbase (dl.map yyyymmdd)).getD j 0 : ℚ)) *
      mstScale (dl.map yyyymmdd) pb) ^ 2 := pow_two_pos_of_ne_zero hfac
  have hsq2 : 0 ≤ (pb.getD i 0 - pb.getD j 0) ^ 2 := sq_nonneg _
  linarith

/-- C9 witness. -/
theorem pair_ops_mutation_state_witness :
    (pair_merge [(0, 1)] [(0, 2)]).2.2 = [(0, 2)] ∧
    [(0, 1)] <+: (pair_merge [(0, 1)] [(0, 2)]).2.1 ∧
    (∀ q ∈ (pair_merge [(0, 1)] [(0, 2)]).2.1, q ∈ [(0, 1)] ∨ q ∈ [(0, 2)]) ∧
    (pair_sort [(1, 0)]).2.length = [(1, 0)].length ∧
    (∀ i, i < [(1, 0)].length →
      (pair_sort [(1, 0)]).2.getD i (0, 0) = [(1, 0)].getD i (0, 0) ∨
      (pair_sort [(1, 0)]).2.getD i (0, 0) =
        (([(1, 0)].getD i (0, 0)).2, ([(1, 0)].getD i (0, 0)).1)) :=
  pair_ops_mutation_state [(0, 1)] [(0, 2)] [(1, 0)]

theorem getD_const_zero {α : Type} (l : List α) (i : Nat) :
    (l.map (fun _ => (0 : ℚ))).getD i 0 = 0 := by
  induction l generalizing i with
  | nil => rfl
  | cons x xs ih =>
    cases i with
    | zero => rfl
    | succ n => exact ih n

theorem mapped_adjacent {E : List (Nat × Nat)} {f : Nat → Nat} {i j : Nat}
    (h : adjacentIn E i j) :
    adjacentIn (E.map (fun e => (f (min e.1 e.2), f (max e.1 e.2)))) (f i) (f j) := by
  rcases h with h | h
  · rcases le_total i j with hle | hle
    · exact Or.inl (List.mem_map.2 ⟨(i, j), h, by
        simp [min_eq_left hle, max_eq_right hle]⟩)
    · exact Or.inr (List.mem_map.2 ⟨(i, j), h, by
        simp [min_eq_right hle, max_eq_left hle]⟩)
  · rcases le_total j i with hle | hle
    · exact Or.inr (List.mem_map.2 ⟨(j, i), h, by
        simp [min_eq_left hle, max_eq_right hle]⟩)
    · exact Or.inl (List.mem_map.2 ⟨(j, i), h, by
        simp [min_eq_right hle, max_eq_left hle]⟩)

theorem primGo_stuck {w : Nat → Nat → ℚ} {inT outT : List Nat}
    (h : crossEdges w inT outT = []) (fuel : Nat) (acc : List (Nat × Nat)) :
    primGo w (fuel + 1) inT outT acc = acc.reverse := by
  simp only [primGo, h, pickMin]

/-- C4 (amended): for every registry of n ≥ 2 distinct valid dates whose
perpendicular-baseline list contains at least two distinct values, the
MST strategy returns exactly n − 1 pairs and their graph connects every
pair of serialized registry dates.  (The unamended claim fails when all
baselines are equal: the normalization collapses every weight to zero
and the sparse matrix stores no edge, see the counterexample.) -/
theorem select_pairs_mst_spanning {dl : List Nat} {pb : List ℚ}
    (hn : 2 ≤ dl.length) (hlen : pb.length = dl.length)
    (hval : ∀ d ∈ dl, ValidDate8 (yyyymmdd d))
    (hnd : (dl.map yyyymmdd).Nodup)
    (hpb : listMin 0 pb ≠ listMax 0 pb) :
    (select_pairs_mst dl pb).length = dl.length - 1 ∧
    ∀ a ∈ dl.map yymmdd, ∀ b ∈ dl.map yymmdd,
      Relation.ReflTransGen (adjacentIn (select_pairs_mst dl pb)) a b := by
  have hprim := prim_spec dl.length (mstWeightSq (dl.map yyyymmdd) pb) (by omega)
    (fun i j hi hj hij => mstWeightSq_ne_zero hn hval hnd hpb hi hj hij)
  have hresult : select_pairs_mst dl pb =
      (prim dl.length (mstWeightSq (dl.map yyyymmdd) pb)).map (fun e =>
        ((dl.map yymmdd).getD (min e.1 e.2) 0, (dl.map yymmdd).getD (max e.1 e.2) 0)) :=
    rfl
  have hreach0 : ∀ v, v < dl.length →
      Relation.ReflTransGen (adjacentIn (select_pairs_mst dl pb))
        ((dl.map yymmdd).getD 0 0) ((dl.map yymmdd).getD v 0) := by
    intro v hv
    rw [hresult]
    exact Relation.ReflTransGen.lift (fun i => (dl.map yymmdd).getD i 0)
      (fun a b hab => @mapped_adjacent _ (fun i => (dl.map yymmdd).getD i 0) a b hab)
      (hprim.2.2 v hv)
  constructor
  · rw [hresult, List.length_map, hprim.1]
  · intro a ha b hb
    obtain ⟨ia, hia, hga⟩ := List.getElem_of_mem ha
    obtain ⟨ib, hib, hgb⟩ := List.getElem_of_mem hb
    have hia2 : ia < dl.length := by rw [List.length_map] at hia; exact hia
    have hib2 : ib < dl.length := by rw [List.length_map] at hib; exact hib
    have hga2 : (dl.map yymmdd).getD ia 0 = a := by
      rw [List.getD_eq_getElem _ _ hia]; exact hga
    have hgb2 : (dl.map yymmdd).getD ib 0 = b := by
      rw [List.getD_eq_getElem _ _ hib]; exact hgb
    have hsym : Symmetric (Relation.ReflTransGen (adjacentIn (select_pairs_mst dl pb))) :=
      Relation.ReflTransGen.symmetric (adjacentIn_symm _)
    have h1 := hreach0 ia hia2
    have h2 := hreach0 ib hib2
    rw [hga2] at h1
    rw [hgb2] at h2
    exact Relation.ReflTransGen.trans (hsym h1) h2

/-- C4 witness: a two-date registry with distinct perpendicular
baselines gets one pair connecting both dates. -/
theorem select_pairs_mst_spanning_witness :
    (select_pairs_mst [70101, 70111] [0, 50]).length = [70101, 70111].length - 1 ∧
    ∀ a ∈ [70101, 70111].map yymmdd, ∀ b ∈ [70101, 70111].map yymmdd,
      Relation.ReflTransGen
        (adjacentIn (select_pairs_mst [70101, 70111] [0, 50])) a b :=
  select_pairs_mst_spanning (by decide) (by decide) (by decide) (by decide) (by decide)

/-- C4 counterexample: with all perpendicular baselines equal the
normalization factor is zero, every weight is zero, the sparse matrix
stores no edge, and the strategy returns no pairs (not n − 1 = 1). -/
theorem select_pairs_mst_equal_pbase_cex :
    select_pairs_mst [70101, 70111] [5, 5] = [] := by
  have hscale : mstScale [yyyymmdd 70101, yyyymmdd 70111] [5, 5] = 0 := by
    unfold mstScale
    rw [show listMax (0 : ℚ) [5, 5] - listMin (0 : ℚ) [5, 5] = 0 by
      norm_num [listMax, listMin]]
    exact zero_div _
  have hw : mstWeightSq [yyyymmdd 70101, yyyymmdd 70111] [5, 5] 0 1 = 0 := by
    unfold mstWeightSq
    simp only [hscale, mul_zero]
    rw [getD_const_zero, getD_const_zero]
    norm_num [List.getD_cons_zero, List.getD_cons_succ]
  have hcross : crossEdges (mstWeightSq ([70101, 70111].map yyyymmdd) [5, 5]) [0] [1] = [] := by
    simp [crossEdges, hw]
  calc select_pairs_mst [70101, 70111] [5, 5]
      = (prim 2 (mstWeightSq ([70101, 70111].map yyyymmdd) [5, 5])).map
          (fun e => (([70101, 70111].map yymmdd).getD (min e.1 e.2) 0,
            ([70101, 70111].map yymmdd).getD (max e.1 e.2) 0)) := rfl
    _ = (primGo (mstWeightSq ([70101, 70111].map yyyymmdd) [5, 5]) (1 + 1) [0] [1] []).map
          (fun e => (([70101, 70111].map yymmdd).getD (min e.1 e.2) 0,
            ([70101, 70111].map yymmdd).getD (max e.1 e.2) 0)) := rfl
    _ = ([] : List (Nat × Nat)).map
          (fun e => (([70101, 70111].map yymmdd).getD (min e.1 e.2) 0,
            ([70101, 70111].map yymmdd).getD (max e.1 e.2) 0)) := by
        rw [primGo_stuck hcross 1 []]
        rfl
    _ = [] := rfl

end PySAR
